import Mathlib

/-!
Verification of the Node-RED uRDF runtime plugin
(`nodered-urdf/node-red-urdf-plugin/runtime/index.js`, the variant with
reasoning support, i.e. the second module in the file).

The JavaScript runtime is shallowly embedded: JSON/JS values become the
`Json` inductive type, JS objects become insertion-ordered association
lists, JS `Map`s become association lists, and the relevant functions of
the runtime are translated one by one, keeping their source names.  The
external `urdf` store library is not part of the repository; where a
claim depends on it, a definition explicitly marked as modelled from the
specification stands in for it.
-/

namespace Urdf

/-- JSON / JavaScript values as manipulated by the runtime.  Objects are
insertion-ordered key/value lists (JS object key order); `null` covers both
JS `null` and `undefined` where the distinction does not matter (places
where it does are modelled with `Option Json`). -/
inductive Json where
  | str (s : String)
  | num (n : Int)
  | bool (b : Bool)
  | null
  | arr (xs : List Json)
  | obj (kvs : List (String × Json))

/-- JS `typeof x === "object" && x !== null && !Array.isArray(x)`. -/
def Json.isObj : Json → Bool
  | .obj _ => true
  | _ => false

/-- JS `Array.isArray`. -/
def Json.isArr : Json → Bool
  | .arr _ => true
  | _ => false

/-- Property read `x[k]` on a JS object: `none` plays the role of
`undefined` (also for non-objects, where JS property reads on primitives
yield `undefined` for the keys used by this runtime). -/
def Json.get : Json → String → Option Json
  | .obj kvs, k => (kvs.find? (fun kv => kv.1 = k)).map (·.2)
  | _, _ => none

/-- Property write `x[k] = v` on an object: overwrites in place when the key
exists (JS objects keep the original key position), else appends the key. -/
def setKey (kvs : List (String × Json)) (k : String) (v : Json) :
    List (String × Json) :=
  if kvs.any (fun kv => kv.1 = k) then
    kvs.map (fun kv => if kv.1 = k then (k, v) else kv)
  else kvs ++ [(k, v)]

/-- JS truthiness of a value (`""`, `0`, `false`, `null`/`undefined` are
falsy; objects and arrays are always truthy). -/
def jsTruthy : Json → Bool
  | .str s => s ≠ ""
  | .num n => n ≠ 0
  | .bool b => b
  | .null => false
  | .arr _ => true
  | .obj _ => true

/-- JS string conversion `String(v)` for the primitive values the runtime
feeds to it (template literals use the same conversion). -/
def jsToString : Json → String
  | .str s => s
  | .num n => toString n
  | .bool b => if b then "true" else "false"
  | .null => "null"
  | .arr _ => ""
  | .obj _ => "[object Object]"

/-! ### Decimal numerals

JS stringifies the non-negative integers of this runtime (dictionary
indices, blank-node counters, gate indices) in decimal.  `decStr` is that
numeral; the decode lemmas below give the round-trip needed for dictionary
and blank-node reasoning. -/

/-- Decimal digit characters of `n`, most significant first
(accumulator-passing form). -/
def decDigitsAux : Nat → List Char → List Char
  | n, acc =>
    let c := Char.ofNat (48 + n % 10)
    if n < 10 then c :: acc else decDigitsAux (n / 10) (c :: acc)

/-- Decimal digit characters of `n`, most significant first. -/
def decDigits (n : Nat) : List Char := decDigitsAux n []

/-- Decimal numeral of `n` as a string (JS `String(n)` / `${n}`). -/
def decStr (n : Nat) : String := String.mk (decDigits n)

/-- Value of a digit string read left to right (JS `Number` on a string of
decimal digits; the model is exact where JS doubles would round above
2^53, an irrelevant regime here). -/
def decValue (ds : List Char) : Nat :=
  ds.foldl (fun a c => a * 10 + (c.toNat - 48)) 0

theorem decDigitsAux_eq (n : Nat) (acc : List Char) :
    decDigitsAux n acc = decDigits n ++ acc := by
  induction n using Nat.strong_induction_on generalizing acc with
  | _ n ih =>
    by_cases h : n < 10
    · simp [decDigitsAux, decDigits, h]
    · conv_lhs => rw [decDigitsAux]
      conv_rhs => rw [decDigits, decDigitsAux]
      simp only [h, if_false]
      rw [ih (n / 10) (Nat.div_lt_self (by omega) (by omega)),
        ih (n / 10) (Nat.div_lt_self (by omega) (by omega))]
      simp

theorem digit_toNat {d : Nat} (h : d < 10) :
    (Char.ofNat (48 + d)).toNat = 48 + d := by
  interval_cases d <;> decide

theorem digit_isDigit {d : Nat} (h : d < 10) :
    (Char.ofNat (48 + d)).isDigit = true := by
  interval_cases d <;> decide

theorem decValue_append (xs ys : List Char) :
    decValue (xs ++ ys) = ys.foldl (fun a c => a * 10 + (c.toNat - 48)) (decValue xs) := by
  simp [decValue, List.foldl_append]

theorem decValue_decDigits (n : Nat) : decValue (decDigits n) = n := by
  induction n using Nat.strong_induction_on with
  | _ n ih =>
    by_cases h : n < 10
    · rw [decDigits, decDigitsAux]
      simp only [h, if_true]
      have hmod : n % 10 = n := Nat.mod_eq_of_lt h
      have ht := digit_toNat (show n % 10 < 10 by omega)
      rw [hmod] at ht
      simp [decValue, ht, hmod]
    · rw [decDigits, decDigitsAux]
      simp only [h, if_false]
      rw [decDigitsAux_eq, decValue_append]
      simp only [List.foldl]
      rw [ih (n / 10) (Nat.div_lt_self (by omega) (by omega))]
      have h10 : n % 10 < 10 := Nat.mod_lt _ (by omega)
      rw [digit_toNat h10]
      omega

theorem decDigits_ne_nil (n : Nat) : decDigits n ≠ [] := by
  rw [decDigits, decDigitsAux]
  by_cases h : n < 10 <;> simp [h, decDigitsAux_eq]

theorem decDigits_all_digit (n : Nat) :
    (decDigits n).all Char.isDigit = true := by
  induction n using Nat.strong_induction_on with
  | _ n ih =>
    rw [decDigits, decDigitsAux]
    by_cases h : n < 10
    · simp [h, digit_isDigit (Nat.mod_lt _ (by omega) : n % 10 < 10)]
    · simp only [h, if_false]
      rw [decDigitsAux_eq]
      have := ih (n / 10) (Nat.div_lt_self (by omega) (by omega))
      simp_all [digit_isDigit (Nat.mod_lt _ (by omega) : n % 10 < 10)]

theorem decDigits_injective : Function.Injective decDigits := by
  intro a b h
  have := decValue_decDigits a
  rw [h, decValue_decDigits] at this
  omega

/-! ### IRI dictionary (component 4.A)

Source: `runtime/index.js`, the `z` helper (lines 1452-1455) and
`expandZToken` (lines 1123-1130).  The dictionary `ZURL` is the ordered
IRI list loaded at startup; it is passed explicitly here. -/

/-- Dictionary compression (source function `z`): `z:<i>` for a known IRI
(first occurrence wins, via JS `Array.prototype.indexOf`), the input
unchanged otherwise. -/
def z (Z : List String) (iri : String) : String :=
  if Z.contains iri then "z:" ++ decStr (Z.indexOf iri) else iri

/-- Match of the JS regular expression `^z:(\d+)$` together with
`Number()` of the captured digits. -/
def parseZToken (s : String) : Option Nat :=
  match s.data with
  | 'z' :: ':' :: ds =>
    if ds ≠ [] ∧ ds.all Char.isDigit then some (decValue ds) else none
  | _ => none

/-- Dictionary expansion (source function `expandZToken`): the dictionary
IRI when the argument matches `^z:\d+$`, the index is in range and the
entry is truthy; the argument unchanged otherwise. -/
def expandZToken (Z : List String) (s : String) : String :=
  match parseZToken s with
  | none => s
  | some idx =>
    match Z[idx]? with
    | some iri => if iri = "" then s else iri
    | none => s

/-- The claim's side condition for bare tokens: `s` is a `z:<n>` token whose
index is within the dictionary's range. -/
def isZTokenInRange (Z : List String) (s : String) : Prop :=
  ∃ n, parseZToken s = some n ∧ n < Z.length

instance (Z : List String) (s : String) : Decidable (isZTokenInRange Z s) :=
  decidable_of_iff ((parseZToken s).any (fun n => decide (n < Z.length)) = true)
    (by cases h : parseZToken s <;> simp [isZTokenInRange, h])

theorem parseZToken_decStr (n : Nat) : parseZToken ("z:" ++ decStr n) = some n := by
  have hdata : ("z:" ++ decStr n).data = 'z' :: ':' :: decDigits n := by
    simp [decStr, String.data_append]
  rw [parseZToken, hdata]
  simp [decDigits_ne_nil n, decDigits_all_digit n, decValue_decDigits n]

/-- C2, counterexample.  With dictionary `["urn:a"]` the string `"z:0"` is a
bare token whose index 0 is within range, yet
`expand(compress("z:0")) = "urn:a" ≠ "z:0"`: composing compression with
expansion is not the identity on in-range bare tokens that are not
themselves dictionary entries. -/
theorem c2_roundtrip_counterexample :
    isZTokenInRange ["urn:a"] "z:0" ∧
    expandZToken ["urn:a"] (z ["urn:a"] "z:0") = "urn:a" ∧
    "urn:a" ≠ "z:0" := by
  refine ⟨?_, by decide, by decide⟩
  exact ⟨0, by decide, by decide⟩

/-- C2, amended.  For a nonempty string present in the dictionary,
`expand(compress(s)) = s`.  A string absent from the dictionary is left
unchanged by compression; if it is a bare `z:<n>` token with `n` in range
and a nonempty entry, expansion maps it to the dictionary IRI at index `n`
(so the round-trip returns that IRI, not `s`, whenever the two differ);
strings that are neither are left unchanged by both operations. -/
theorem c2_roundtrip_amended (Z : List String) (s : String) :
    (s ∈ Z → s ≠ "" → expandZToken Z (z Z s) = s) ∧
    (s ∉ Z → z Z s = s) ∧
    (∀ n, parseZToken s = some n → ∀ h : n < Z.length, Z[n] ≠ "" →
      expandZToken Z s = Z[n]) ∧
    ((∀ n, parseZToken s = some n → Z.length ≤ n ∨ Z[n]? = some "") →
      expandZToken Z s = s) := by
  refine ⟨?_, ?_, ?_, ?_⟩
  · intro hmem hne
    have hc : Z.contains s = true := by simp [hmem]
    have hlt : Z.indexOf s < Z.length := List.indexOf_lt_length.mpr hmem
    have hget : Z[Z.indexOf s]? = some s := by
      rw [List.getElem?_eq_getElem hlt]
      simp [List.getElem_indexOf hlt]
    rw [z, if_pos hc]
    simp only [expandZToken, parseZToken_decStr, hget]
    simp [hne]
  · intro hmem
    have hc : Z.contains s = false := by simp [hmem]
    simp only [z, hc]
    simp
  · intro n hn hlt hne
    have hget : Z[n]? = some (Z[n]) := List.getElem?_eq_getElem hlt
    simp only [expandZToken, hn, hget]
    simp [hne]
  · intro h
    cases hp : parseZToken s with
    | none => simp only [expandZToken, hp]
    | some n =>
      rcases h n hp with hge | hempty
      · have : Z[n]? = none := List.getElem?_eq_none (by omega)
        simp only [expandZToken, hp, this]
      · simp only [expandZToken, hp, hempty]
        simp

/-- C2, witness for the amended theorem at the dictionary
`["urn:a", "urn:b"]` and the entry `"urn:b"`. -/
theorem c2_roundtrip_amended_witness :
    expandZToken ["urn:a", "urn:b"] (z ["urn:a", "urn:b"] "urn:b") = "urn:b" := by
  exact (c2_roundtrip_amended ["urn:a", "urn:b"] "urn:b").1 (by decide) (by decide)

/-! ### SPARQL gateway: query rewriting (component 4.D)

Source: `rewriteQuery` (lines 1187-1205).  Two global regex replaces over
the query text: `/<([^>\s]+)>/g`, compressing known IRIs in angle
brackets, then `/<z:0>(?=(?:[^()]*\([^()]*\))*[^()]*$)/g`, rewriting the
index-0 token to the bare keyword `a` when the lookahead accepts the
remainder of the text. -/

/-- JS regex `\s` whitespace class (the ASCII members plus NBSP and BOM;
the rarer Unicode space characters are not produced by any input
considered here). -/
def isJsWs (c : Char) : Bool :=
  c = ' ' ∨ c = '\t' ∨ c = '\n' ∨ c = '\r' ∨ c = '\x0b' ∨ c = '\x0c' ∨
    c = ' ' ∨ c = '﻿'

/-- Character class `[^>\s]` of the angle-bracket regex. -/
def isAngleRunChar (c : Char) : Bool := c ≠ '>' ∧ ¬ isJsWs c

/-- The `zIndexByIri` map of `rewriteQuery`: `Map.set` over ascending
indices, so for duplicate dictionary entries the last index wins (unlike
`z`, which uses `indexOf`). -/
def zIndexByIri (Z : List String) (iri : String) : Option Nat :=
  (List.range Z.length).foldl
    (fun acc i => if Z[i]? = some iri then some i else acc) none

/-- Replacement for one `<...>` match: `<z:i>` when the IRI is known, the
match unchanged otherwise. -/
def compressAngle (Z : List String) (run : List Char) : List Char :=
  match zIndexByIri Z (String.mk run) with
  | some i => '<' :: 'z' :: ':' :: (decDigits i ++ ['>'])
  | none => '<' :: (run ++ ['>'])

/-- First replace of `rewriteQuery`: global scan for `<([^>\s]+)>`,
consuming each match whole (also when the IRI is unknown and the
replacement is the match itself).  The regex matches at a `<` exactly when
the maximal `[^>\s]` run after it is nonempty and followed by `>`; the
head/tail form below is that match. -/
def replaceAngles (Z : List String) : List Char → List Char
  | [] => []
  | c :: rest =>
    if c = '<' then
      let run := rest.takeWhile isAngleRunChar
      let rest1 := rest.drop run.length
      if run ≠ [] ∧ rest1.head? = some '>' then
        compressAngle Z run ++ replaceAngles Z rest1.tail
      else c :: replaceAngles Z rest
    else c :: replaceAngles Z rest
termination_by cs => cs.length
decreasing_by
  all_goals try simp [List.length_tail, List.length_drop]
  all_goals omega

/-- The parenthesis characters of a string. -/
def parenChars (cs : List Char) : List Char :=
  cs.filter (fun c => c = '(' ∨ c = ')')

/-- Accepts exactly the sequences `()()...()` (possibly empty). -/
def pairsOnly : List Char → Bool
  | [] => true
  | '(' :: ')' :: r => pairsOnly r
  | _ => false

/-- The lookahead `(?=(?:[^()]*\([^()]*\))*[^()]*$)` of the second replace:
the regex `([^()]*\([^()]*\))*[^()]*` must match the whole remainder, which
holds exactly when the remainder's parenthesis characters form non-nested
`()` pairs (each starred group contributes one `(` immediately paired with
one `)`, and text outside groups is parenthesis-free). -/
def lookaheadOk (cs : List Char) : Bool := pairsOnly (parenChars cs)

/-- Second replace of `rewriteQuery`: each occurrence of `<z:0>` becomes
`a` when the lookahead accepts the remainder of the text after the match;
a failed lookahead makes the regex fail at that position, so the scan
resumes one character later. -/
def replaceZ0 : List Char → List Char
  | [] => []
  | c :: rest =>
    if c = '<' ∧ rest.take 4 = ['z', ':', '0', '>'] then
      if lookaheadOk (rest.drop 4) then 'a' :: replaceZ0 (rest.drop 4)
      else c :: replaceZ0 rest
    else c :: replaceZ0 rest
termination_by cs => cs.length
decreasing_by
  all_goals try simp
  all_goals omega

/-- Source function `rewriteQuery`: IRI compression inside angle brackets
followed by the `<z:0>` → `a` rewrite. -/
def rewriteQuery (Z : List String) (sparql : String) : String :=
  String.mk (replaceZ0 (replaceAngles Z sparql.data))

/-! ### POST /urdf/query: contract enforcement (component 4.D)

Source: the `POST /urdf/query` handler (lines 3407-3482).  After the body
check, `/(^|\s)(prefix|base)\s+/i.test(sparql)` decides rejection; only
when it fails is `rewriteQuery` applied and `urdf.query` invoked. -/

/-- Match attempt of `(prefix|base)\s+` (case-insensitive) at offset `i`:
the lowercased slice equals the keyword and the next character is
whitespace. -/
def kwWithWsAt (cs : List Char) (i : Nat) (w : List Char) : Bool :=
  (((cs.drop i).take w.length).map Char.toLower == w) &&
    match (cs.drop (i + w.length)).head? with
    | some c => isJsWs c
    | none => false

/-- The `(^|\s)` group at offset `i`: start of input or a whitespace
character immediately before. -/
def boundaryAt (cs : List Char) (i : Nat) : Bool :=
  (i == 0) || match cs[i - 1]? with
    | some c => isJsWs c
    | none => false

/-- JS `/(^|\s)(prefix|base)\s+/i.test(sparql)`: some offset carries a
boundary followed by one of the keywords and a whitespace character. -/
def jsTestPrefixBase (cs : List Char) : Bool :=
  (List.range cs.length).any fun i =>
    boundaryAt cs i && (kwWithWsAt cs i "prefix".data || kwWithWsAt cs i "base".data)

/-- Maximal whitespace-delimited tokens of a string (used to state what a
"standalone keyword" is; not part of the source). -/
def wsTokens : List Char → List (List Char)
  | [] => []
  | c :: rest =>
    if isJsWs c then wsTokens rest
    else (c :: rest.takeWhile (fun d => ¬ isJsWs d)) ::
      wsTokens (rest.dropWhile (fun d => ¬ isJsWs d))
termination_by cs => cs.length
decreasing_by
  all_goals try simp
  · exact Nat.lt_succ_of_le (List.dropWhile_suffix _ |>.length_le)

/-- The claim's notion: the query text contains `PREFIX` or `BASE`
(case-insensitive) as a standalone whitespace-delimited token. -/
def hasStandaloneKw (cs : List Char) : Bool :=
  (wsTokens cs).any fun t =>
    t.map Char.toLower = "prefix".data ∨ t.map Char.toLower = "base".data

/-- Observable decision of the query endpoint, up to (but not including)
the evaluator call: `badRequest` is the 400 for a missing/empty body,
`rejected` the 400 of the PREFIX/BASE contract (no store access), and
`evaluated q` records that `urdf.query q` is invoked. -/
inductive QueryDecision where
  | badRequest
  | rejected
  | evaluated (rewritten : String)
deriving DecidableEq

/-- The `POST /urdf/query` handler up to the evaluator call.  The body
check `!sparql || typeof sparql !== "string" || !sparql.trim()` is the
string/nonblank test; JS `trim()` leaves something exactly when some
character is not whitespace. -/
def queryEndpointDecision (Z : List String) (body : Json) : QueryDecision :=
  match body.get "sparql" with
  | some (.str s) =>
    if s.data.all isJsWs then .badRequest
    else if jsTestPrefixBase s.data then .rejected
    else .evaluated (rewriteQuery Z s)
  | _ => .badRequest

/-- C3, counterexample.  The query text `"ASK { ?s ?p ?o } BASE"` contains
`BASE` as a standalone whitespace-delimited token, yet the handler does not
reject it: the guard regex demands a whitespace character after the
keyword, so the evaluator is invoked (`evaluated`), contradicting the
claim that every query containing a standalone PREFIX/BASE keyword is
rejected before evaluation. -/
theorem c3_reject_counterexample :
    hasStandaloneKw "ASK \x7b ?s ?p ?o \x7d BASE".data = true ∧
    queryEndpointDecision []
        (.obj [("sparql", .str "ASK \x7b ?s ?p ?o \x7d BASE")]) =
      .evaluated (rewriteQuery [] "ASK \x7b ?s ?p ?o \x7d BASE") := by
  constructor
  · simp +decide [hasStandaloneKw, wsTokens, isJsWs]
  · have h1 : ("ASK \x7b ?s ?p ?o \x7d BASE".data.all isJsWs) = false := by decide
    have h2 : jsTestPrefixBase "ASK \x7b ?s ?p ?o \x7d BASE".data = false := by decide
    simp [queryEndpointDecision, Json.get, h1, h2]

/-- C3, amended.  Whenever the submitted text contains a standalone
`PREFIX` or `BASE` keyword (case-insensitive) that is followed by at least
one whitespace character, the handler rejects the request with the
contract 400 before the evaluator is invoked and without touching the
store (the `rejected` decision carries no evaluator call). -/
theorem c3_reject_amended (Z : List String) (body : Json) (s : String)
    (u kwc v w : List Char)
    (hbody : body.get "sparql" = some (.str s))
    (hsplit : s.data = u ++ kwc ++ v)
    (hw : w = "prefix".data ∨ w = "base".data)
    (hkw : kwc.map Char.toLower = w)
    (hb : u = [] ∨ ∃ u' c, u = u' ++ [c] ∧ isJsWs c)
    (hv : ∃ c cs, v = c :: cs ∧ isJsWs c) :
    queryEndpointDecision Z body = .rejected := by
  obtain ⟨cv, csv, hveq, hcv⟩ := hv
  have hlenw : kwc.length = w.length := by
    rw [← hkw, List.length_map]
  have hkwne : kwc ≠ [] := by
    intro h
    rw [h] at hlenw
    rcases hw with hw | hw <;> rw [hw] at hlenw <;> simp at hlenw
  obtain ⟨c₀, kwc', hk0⟩ := List.exists_cons_of_ne_nil hkwne
  have hc₀ : c₀.toLower = 'p' ∨ c₀.toLower = 'b' := by
    rcases hw with hw | hw <;>
      (rw [hw] at hkw; rw [hk0] at hkw; simp at hkw; tauto)
  have hc₀ws : isJsWs c₀ = false := by
    by_contra h
    have h' : isJsWs c₀ = true := by revert h; cases isJsWs c₀ <;> simp
    simp only [isJsWs, decide_eq_true_eq] at h'
    rcases hc₀ with hcl | hcl <;>
      (rcases h' with h | h | h | h | h | h | h | h <;> (rw [h] at hcl; revert hcl; decide))
  have hmem : c₀ ∈ s.data := by
    rw [hsplit, hk0]
    simp
  have hallws : (s.data.all isJsWs) = false := by
    rcases hall : s.data.all isJsWs with _ | _
    · rfl
    · exact absurd (List.all_eq_true.mp hall c₀ hmem) (by simp [hc₀ws])
  have hi : u.length < s.data.length := by
    rw [hsplit, hk0]
    simp
  have htest : jsTestPrefixBase s.data = true := by
    rw [jsTestPrefixBase, List.any_eq_true]
    refine ⟨u.length, List.mem_range.mpr hi, ?_⟩
    have hbound : boundaryAt s.data u.length = true := by
      rcases hb with hb | ⟨u', c, hueq, hcws⟩
      · simp [boundaryAt, hb]
      · rw [boundaryAt]
        have : s.data[u.length - 1]? = some c := by
          rw [hsplit, hueq]
          have h1 : (u' ++ [c]).length - 1 = u'.length := by simp
          rw [h1, List.append_assoc, List.append_assoc]
          rw [List.getElem?_append_right (by simp)]
          simp
        rw [this]
        simp [hcws]
    have hkwat : kwWithWsAt s.data u.length w = true := by
      rw [kwWithWsAt]
      have hdrop : s.data.drop u.length = kwc ++ v := by
        rw [hsplit, List.append_assoc, List.drop_left]
      have htake : (s.data.drop u.length).take w.length = kwc := by
        rw [hdrop, ← hlenw, List.take_left]
      have hdrop2 : s.data.drop (u.length + w.length) = v := by
        rw [hsplit, ← hlenw]
        have : u ++ kwc ++ v = (u ++ kwc) ++ v := by simp
        rw [this, ← List.length_append u kwc, List.drop_left]
      rw [htake, hkw, hdrop2, hveq]
      simp [hcv]
    rw [hbound]
    rcases hw with hw | hw <;> (subst hw; simp [hkwat])
  rw [queryEndpointDecision, hbody]
  simp [hallws, htest]

/-- C3, witness: concrete rejection of `"SELECT * \x7b ?s ?p ?o \x7d"`
preceded by a `PREFIX` declaration. -/
theorem c3_reject_amended_witness :
    queryEndpointDecision []
        (.obj [("sparql", .str "PREFIX ex: <urn:e#> SELECT * WHERE \x7b ?s ?p ?o \x7d")]) =
      .rejected := by
  refine c3_reject_amended [] _ _ [] "PREFIX".data
      " ex: <urn:e#> SELECT * WHERE \x7b ?s ?p ?o \x7d".data "prefix".data
      rfl (by decide) (Or.inl rfl) (by decide) (Or.inl rfl) ?_
  exact ⟨' ', "ex: <urn:e#> SELECT * WHERE \x7b ?s ?p ?o \x7d".data, by decide, by decide⟩

/-! ### C4: behaviour of the two rewrites of `rewriteQuery` -/

theorem replaceAngles_cons_ne (Z : List String) (c : Char) (rest : List Char)
    (hc : c ≠ '<') :
    replaceAngles Z (c :: rest) = c :: replaceAngles Z rest := by
  rw [replaceAngles]
  simp [hc]

theorem replaceAngles_angle (Z : List String) (run v : List Char)
    (hne : run ≠ []) (hall : ∀ c ∈ run, isAngleRunChar c = true) :
    replaceAngles Z ('<' :: (run ++ '>' :: v)) =
      compressAngle Z run ++ replaceAngles Z v := by
  have htw : (run ++ '>' :: v).takeWhile isAngleRunChar = run := by
    rw [List.takeWhile_append_of_pos hall]
    simp [List.takeWhile_cons, isAngleRunChar]
  rw [replaceAngles]
  simp only [htw, List.drop_left]
  simp [hne]

theorem replaceZ0_cons_ne (c : Char) (rest : List Char) (hc : c ≠ '<') :
    replaceZ0 (c :: rest) = c :: replaceZ0 rest := by
  rw [replaceZ0]
  simp [hc]

theorem replaceZ0_at_match (v : List Char) :
    replaceZ0 ('<' :: 'z' :: ':' :: '0' :: '>' :: v) =
      if lookaheadOk v then 'a' :: replaceZ0 v
      else '<' :: 'z' :: ':' :: '0' :: '>' :: replaceZ0 v := by
  rw [replaceZ0]
  simp only [List.take_succ_cons, List.take_zero, List.drop_succ_cons,
    List.drop_zero, and_self, if_true, reduceIte]
  by_cases h : lookaheadOk v
  · rw [if_pos h, if_pos h]
  · rw [if_neg h, if_neg h,
      replaceZ0_cons_ne _ _ (by decide), replaceZ0_cons_ne _ _ (by decide),
      replaceZ0_cons_ne _ _ (by decide), replaceZ0_cons_ne _ _ (by decide)]

/-- C4, counterexample.  With dictionary `["urn:t"]`, the query
`ASK { <urn:t> ?p ?o }` has the index-0 IRI in SUBJECT position, yet the
rewriter still replaces it with the bare keyword `a`: the `a`-substitution
is not restricted to predicate position. -/
theorem c4_rewrite_counterexample :
    rewriteQuery ["urn:t"] "ASK \x7b <urn:t> ?p ?o \x7d" =
      "ASK \x7b a ?p ?o \x7d" := by
  have hz : zIndexByIri ["urn:t"] "urn:t" = some 0 := by decide
  have hd : decDigits 0 = ['0'] := by rw [decDigits, decDigitsAux]; simp
  simp [rewriteQuery, replaceAngles, replaceZ0, compressAngle, hz, hd,
    isAngleRunChar, isJsWs, lookaheadOk, parenChars, pairsOnly]

/-- C4, amended.  The first rewrite replaces every angle-bracketed IRI by
its compressed form (`compressAngle` yields `<z:i>` for known IRIs and the
original text otherwise); the second rewrite replaces an occurrence of
`<z:0>` by the bare keyword `a` exactly when the remainder of the query
after the occurrence contains only non-nested balanced parentheses — i.e.
in any grammatical position outside a call expression, not only in
predicate position. -/
theorem c4_rewrite_amended :
    (∀ (Z : List String) (u run v : List Char), '<' ∉ u → run ≠ [] →
      (∀ c ∈ run, isAngleRunChar c = true) →
      replaceAngles Z (u ++ '<' :: (run ++ '>' :: v)) =
        u ++ (compressAngle Z run ++ replaceAngles Z v)) ∧
    (∀ u v : List Char, '<' ∉ u →
      replaceZ0 (u ++ '<' :: 'z' :: ':' :: '0' :: '>' :: v) =
        u ++ if lookaheadOk v then 'a' :: replaceZ0 v
             else '<' :: 'z' :: ':' :: '0' :: '>' :: replaceZ0 v) := by
  constructor
  · intro Z u run v hu hne hall
    induction u with
    | nil => simpa using replaceAngles_angle Z run v hne hall
    | cons c u ih =>
      have hc : c ≠ '<' := by
        intro h
        exact hu (by simp [h])
      rw [List.cons_append, replaceAngles_cons_ne Z c _ hc,
        ih (fun h => hu (List.mem_cons_of_mem c h))]
      simp
  · intro u v hu
    induction u with
    | nil => simpa using replaceZ0_at_match v
    | cons c u ih =>
      have hc : c ≠ '<' := by
        intro h
        exact hu (by simp [h])
      rw [List.cons_append, replaceZ0_cons_ne c _ hc,
        ih (fun h => hu (List.mem_cons_of_mem c h))]
      simp

/-- C4, witness: the amended theorem applied to a known IRI in object
position and to a `<z:0>` occurrence preceding a call expression. -/
theorem c4_rewrite_amended_witness :
    replaceAngles ["urn:t"] ("?s ?p ".data ++ '<' :: ("urn:t".data ++ '>' :: " .".data)) =
      "?s ?p ".data ++ (compressAngle ["urn:t"] "urn:t".data ++ replaceAngles ["urn:t"] " .".data) ∧
    replaceZ0 ("?s ".data ++ '<' :: 'z' :: ':' :: '0' :: '>' :: " FILTER(f(?x))".data) =
      "?s ".data ++ (if lookaheadOk " FILTER(f(?x))".data
        then 'a' :: replaceZ0 " FILTER(f(?x))".data
        else '<' :: 'z' :: ':' :: '0' :: '>' :: replaceZ0 " FILTER(f(?x))".data) :=
  ⟨c4_rewrite_amended.1 ["urn:t"] "?s ?p ".data "urn:t".data " .".data
      (by decide) (by decide) (by decide),
    c4_rewrite_amended.2 "?s ".data " FILTER(f(?x))".data (by decide)⟩

/-! ### Dictionary compression/expansion over JSON-LD structures
(component 4.C)

Source: `compressGraph` (lines 1370-1426) and `expandCompressedGraphDeep`
(lines 1158-1185).  `compressGraph` builds a first-occurrence IRI→index
map and rewrites predicate keys, `@type` members and string `@id`s; its
`toZ` agrees with the startup helper `z` (both resolve an IRI to its first
index), which is therefore reused here. -/

/-- `@type` value rewriting inside `compressGraph`: a string is
compressed, an array compresses its string members, anything else is kept. -/
def compressTypeVal (Z : List String) : Json → Json
  | .str t => .str (z Z t)
  | .arr ts => .arr (ts.map fun t => match t with
      | .str s => .str (z Z s)
      | o => o)
  | o => o

mutual
/-- The `transform` closure of `compressGraph` on a single value. -/
def compressGraphVal (Z : List String) : Json → Json
  | .arr xs => .arr (compressGraphList Z xs)
  | .obj kvs => .obj (compressGraphObj Z kvs)
  | j => j
/-- `transform` mapped over an array. -/
def compressGraphList (Z : List String) : List Json → List Json
  | [] => []
  | x :: xs => compressGraphVal Z x :: compressGraphList Z xs
/-- The `Object.entries` loop of `transform`: keys not starting with `@`
are compressed; `@type` and string `@id` values are compressed; other object
and array values are transformed recursively; primitives (including the
non-string `@id` case, which falls through in the source) are kept. -/
def compressGraphObj (Z : List String) :
    List (String × Json) → List (String × Json)
  | [] => []
  | (key, value) :: rest =>
    let newKey := if key.startsWith "@" then key else z Z key
    let newVal :=
      if key = "@type" then compressTypeVal Z value
      else if key = "@id" then
        match value with
        | .str idv => .str (z Z idv)
        | .arr xs => .arr (compressGraphList Z xs)
        | .obj kvs => .obj (compressGraphObj Z kvs)
        | v => v
      else
        match value with
        | .arr xs => .arr (compressGraphList Z xs)
        | .obj kvs => .obj (compressGraphObj Z kvs)
        | v => v
    (newKey, newVal) :: compressGraphObj Z rest
end

/-- Source function `compressGraph` (the `transform(input)` entry point). -/
def compressGraph (Z : List String) (input : Json) : Json :=
  compressGraphVal Z input

mutual
/-- Source function `expandCompressedGraphDeep`: expands exact `z:N`
tokens in strings, in RDFJS `NamedNode` objects (rebuilt as two-field
objects when the value changes), in predicate keys and recursively in
arrays and objects. -/
def expandCompressedGraphDeep (Z : List String) : Json → Json
  | .str s => .str (expandZToken Z s)
  | .arr xs => .arr (expandGraphList Z xs)
  | .obj kvs =>
    match (Json.obj kvs).get "termType", (Json.obj kvs).get "value" with
    | some (Json.str tt), some (Json.str v) =>
      if tt = "NamedNode" then
        if expandZToken Z v = v then .obj kvs
        else .obj [("termType", .str "NamedNode"), ("value", .str (expandZToken Z v))]
      else .obj (expandGraphObj Z kvs)
    | _, _ => .obj (expandGraphObj Z kvs)
  | j => j
/-- Array branch of `expandCompressedGraphDeep`. -/
def expandGraphList (Z : List String) : List Json → List Json
  | [] => []
  | x :: xs => expandCompressedGraphDeep Z x :: expandGraphList Z xs
/-- Object branch of `expandCompressedGraphDeep`: keys are expanded with
`expandZToken`, values recursively. -/
def expandGraphObj (Z : List String) :
    List (String × Json) → List (String × Json)
  | [] => []
  | (k, v) :: rest =>
    (expandZToken Z k, expandCompressedGraphDeep Z v) :: expandGraphObj Z rest
end

/-! ### The uRDF store, modelled from the spec

The store itself is the external `urdf` npm package, not part of this
repository.  Modelled from the spec: §4.B gives `load` (union semantics
per named graph), `clear(gid)`, `findGraph(gid)` ("signals not-found
distinctly from error"), and §7 gives atomicity ("Every mutation path
leaves the store in its prior state or its new full state (no partial
writes)").  `dflt` is the default graph returned by `findGraph()` without
an argument. -/
structure Store where
  graphs : List (String × List Json)
  dflt : List Json

/-- Spec §4.B `findGraph(gid)`: the stored node array, `none` when the
graph id is unknown (the runtime observes this as a `null`-ish result). -/
def Store.findGraph (st : Store) (gid : String) : Option (List Json) :=
  (st.graphs.find? (·.1 = gid)).map (·.2)

/-- Spec §4.B `clear(gid)`: removes one named graph. -/
def Store.clear (st : Store) (gid : String) : Store :=
  ⟨st.graphs.filter (·.1 ≠ gid), st.dflt⟩

/-- Spec §4.B `load` restricted to one named graph document
`{"@id": gid, "@graph": nodes}`: union semantics per graph. -/
def Store.loadGraph (st : Store) (gid : String) (nodes : List Json) : Store :=
  if (st.graphs.find? (·.1 = gid)).isSome then
    ⟨st.graphs.map (fun g => if g.1 = gid then (gid, g.2 ++ nodes) else g), st.dflt⟩
  else ⟨st.graphs ++ [(gid, nodes)], st.dflt⟩

/-- Source function `replaceNamedGraph` (lines 2452-2455): clear then load. -/
def replaceNamedGraph (st : Store) (gid : String) (graphArray : List Json) :
    Store :=
  (st.clear gid).loadGraph gid graphArray

/-- Source function `getGraphSafe` (lines 2445-2448). -/
def getGraphSafe (st : Store) (gid : String) : List Json :=
  match st.findGraph gid with
  | some g => g
  | none => []

/-! ### POST /urdf/rules/delete (C10)

Source: lines 2528-2546.  `graph.filter(n => !(n && n["@id"] === id))`
removes every truthy node whose `@id` strictly equals the given id — no
`@type` test — and when nothing was removed the handler returns 404
without calling `replaceNamedGraph`. -/

/-- The removal predicate `n && n["@id"] === id` of the delete filter. -/
def ruleMatchesId (id : String) (n : Json) : Bool :=
  jsTruthy n && match n.get "@id" with
    | some (Json.str s) => s = id
    | _ => false

/-- Response statuses of the rules/delete handler (the 500 catch branch is
unreachable in the pure model). -/
inductive DeleteStatus where
  | badRequest
  | notFound
  | ok
deriving DecidableEq

/-- The `POST /urdf/rules/delete` handler: status together with the store
after the request.  The body check `!id.trim()` holds exactly when every
character of the id is whitespace. -/
def rulesDeleteEndpoint (Z : List String) (gidRules : String) (st : Store)
    (id : String) : DeleteStatus × Store :=
  if id.data.all isJsWs then (.badRequest, st)
  else
    let graph := getGraphSafe st gidRules
    let next := graph.filter (fun n => !(ruleMatchesId id n))
    if next.length = graph.length then (.notFound, st)
    else (.ok, replaceNamedGraph st gidRules (compressGraphList Z next))

theorem filter_length_eq_all {α : Type} (l : List α) (p : α → Bool)
    (h : (l.filter p).length = l.length) : ∀ a ∈ l, p a = true := by
  induction l with
  | nil => simp
  | cons x xs ih =>
    by_cases hx : p x = true
    · intro a ha
      rcases List.mem_cons.mp ha with ha | ha
      · rw [ha]; exact hx
      · refine ih ?_ a ha
        simpa [List.filter_cons, hx] using h
    · exfalso
      have hle := List.length_filter_le p xs
      have hx' : p x = false := by revert hx; cases p x <;> simp
      simp [List.filter_cons, hx'] at h
      omega

/-- C10.  With a non-blank id: when no node of the rules graph matches the
id, the handler answers 404 and the store is untouched (no clear, no
load); otherwise it answers 200, the new rules graph is the compressed
filter result, every node whose `@id` equals the id is removed — the
removal predicate never looks at `@type`, so Rule and non-Rule nodes alike
are removed — and every other node is kept in order. -/
theorem c10_rules_delete_behavior (Z : List String) (gidRules id : String)
    (st : Store) (hid : id.data.all isJsWs = false) :
    ((∀ n ∈ getGraphSafe st gidRules, ruleMatchesId id n = false) →
      rulesDeleteEndpoint Z gidRules st id = (.notFound, st)) ∧
    ((∃ n ∈ getGraphSafe st gidRules, ruleMatchesId id n = true) →
      rulesDeleteEndpoint Z gidRules st id =
        (.ok, replaceNamedGraph st gidRules
          (compressGraphList Z
            ((getGraphSafe st gidRules).filter (fun n => !(ruleMatchesId id n))))) ∧
      ∀ n ∈ (getGraphSafe st gidRules).filter (fun n => !(ruleMatchesId id n)),
        ruleMatchesId id n = false) := by
  constructor
  · intro hnone
    have hfilter : (getGraphSafe st gidRules).filter (fun n => !(ruleMatchesId id n))
        = getGraphSafe st gidRules := by
      apply List.filter_eq_self.mpr
      intro a ha
      simp [hnone a ha]
    rw [rulesDeleteEndpoint, if_neg (by simp [hid])]
    simp [hfilter]
  · intro ⟨n₀, hn₀, hmatch⟩
    have hlen : ((getGraphSafe st gidRules).filter
        (fun n => !(ruleMatchesId id n))).length ≠
        (getGraphSafe st gidRules).length := by
      intro hlen
      have hself := filter_length_eq_all _ _ hlen n₀ hn₀
      simp [hmatch] at hself
    refine ⟨?_, ?_⟩
    · rw [rulesDeleteEndpoint, if_neg (by simp [hid])]
      simp only [if_neg hlen]
    · intro n hn
      have := List.of_mem_filter hn
      simpa using this

/-- C10, witness: a store whose rules graph holds one Rule-typed node and
one untyped node sharing the id `urn:r1`, plus an unrelated node; deleting
`urn:r1` removes both nodes with that id and keeps the third. -/
theorem c10_rules_delete_behavior_witness :
    rulesDeleteEndpoint [] "urn:nrua:rules"
        ⟨[("urn:nrua:rules",
           [Json.obj [("@id", Json.str "urn:r1"),
              ("@type", Json.arr [Json.str "urn:Rule"])],
            Json.obj [("@id", Json.str "urn:r1")],
            Json.obj [("@id", Json.str "urn:r2")]])], []⟩ "urn:r1" =
      (.ok, replaceNamedGraph
        ⟨[("urn:nrua:rules",
           [Json.obj [("@id", Json.str "urn:r1"),
              ("@type", Json.arr [Json.str "urn:Rule"])],
            Json.obj [("@id", Json.str "urn:r1")],
            Json.obj [("@id", Json.str "urn:r2")]])], []⟩ "urn:nrua:rules"
        (compressGraphList []
          ((getGraphSafe
            ⟨[("urn:nrua:rules",
               [Json.obj [("@id", Json.str "urn:r1"),
                  ("@type", Json.arr [Json.str "urn:Rule"])],
                Json.obj [("@id", Json.str "urn:r1")],
                Json.obj [("@id", Json.str "urn:r2")]])], []⟩ "urn:nrua:rules").filter
            (fun n => !(ruleMatchesId "urn:r1" n))))) := by
  refine ((c10_rules_delete_behavior [] "urn:nrua:rules" "urn:r1" _
      (by decide)).2 ?_).1
  exact ⟨Json.obj [("@id", Json.str "urn:r1")],
    by simp [getGraphSafe, Store.findGraph, List.find?],
    by simp [ruleMatchesId, jsTruthy, Json.get, List.find?]⟩

/-! ### GET /urdf/export and GET /urdf/graph (C9)

Source: lines 3150-3185 (export) and 3098-3142 (graph).  The graph
handler checks `graph == null` for a given gid and answers 404; the export
handler builds the attachment document unconditionally and answers 200 —
it has no not-found branch.  The pure model omits the try/catch 500 paths
and the `requireUrdf` 500 (module always loaded). -/

/-- The `GET /urdf/export` handler: HTTP status and the JSON-LD document
sent as an attachment. -/
def exportEndpoint (Z : List String) (st : Store) (gid : Option String) :
    Nat × Json :=
  let graph : Json :=
    match gid with
    | some g =>
      match st.findGraph g with
      | some ns => .arr ns
      | none => .null
    | none => .arr st.dflt
  let doc := Json.obj [("@context", .obj []),
    ("@id", .str (match gid with | some g => g | none => "")),
    ("@graph", graph)]
  (200, expandCompressedGraphDeep Z doc)

/-- JS loose check `x == null` on a value of the model. -/
def Json.isNull : Json → Bool
  | .null => true
  | _ => false

/-- The `GET /urdf/graph` handler: HTTP status and `ok` flag; `gid` given
with an unknown graph answers 404 (`graph == null` after expansion). -/
def graphEndpoint (Z : List String) (st : Store) (gid : Option String) :
    Nat × Bool :=
  let graphJ : Json :=
    match gid with
    | some g =>
      match st.findGraph g with
      | some ns => .arr ns
      | none => .null
    | none => .arr st.dflt
  let expanded := expandCompressedGraphDeep Z graphJ
  if gid.isSome && expanded.isNull then (404, false) else (200, true)

/-- C9.  `GET /urdf/export` answers 200 for every gid, including one that
names no loaded graph (no 404 branch exists), while `GET /urdf/graph`
answers 404 exactly when the requested gid is absent from the store. -/
theorem c9_export_vs_graph (Z : List String) (st : Store) (g : String) :
    (exportEndpoint Z st (some g)).1 = 200 ∧
    ((graphEndpoint Z st (some g)).1 =
      match st.findGraph g with
      | none => 404
      | some _ => 200) := by
  constructor
  · rfl
  · cases h : st.findGraph g with
    | none => simp [graphEndpoint, h, expandCompressedGraphDeep, Json.isNull]
    | some ns => simp [graphEndpoint, h, expandCompressedGraphDeep, Json.isNull]

/-! ### Final array-shape check before the application-graph load (C6)

Source: `findFirstNonArrayPredicate` inside `loadApplicationFromFlows`
(lines 2906-2943): walk every graph of the dataset, every node of each
`@graph`, every key other than `@id`; a non-array value aborts the load by
throwing BEFORE `urdf.clear`/`urdf.load` run. -/

/-- Key scan of one node: the first key other than `@id` whose value is
not array-shaped. -/
def findNodeBadKey : List (String × Json) → Option (String × Json)
  | [] => none
  | (p, v) :: rest =>
    if p = "@id" then findNodeBadKey rest
    else if v.isArr then findNodeBadKey rest
    else some (p, v)

/-- Entries walked for one `@graph` element: JS skips falsy and
non-`object` values, while objects and arrays pass (`typeof [] ===
"object"`), an array contributing its index keys. -/
def nodeEntries : Json → Option (List (String × Json))
  | .obj kvs => some kvs
  | .arr xs => some (xs.enum.map (fun iv => (decStr iv.1, iv.2)))
  | _ => none

/-- `g && Array.isArray(g["@graph"]) ? g["@graph"] : []`. -/
def graphNodes (g : Json) : List Json :=
  match g.get "@graph" with
  | some (Json.arr ns) => ns
  | _ => []

/-- Node loop of the walker. -/
def findNodesBad : List Json → Option (String × Json)
  | [] => none
  | n :: rest =>
    match nodeEntries n with
    | none => findNodesBad rest
    | some kvs =>
      match findNodeBadKey kvs with
      | some bad => some bad
      | none => findNodesBad rest

/-- Graph loop of the walker. -/
def findGraphsBad : List Json → Option (String × Json)
  | [] => none
  | g :: rest =>
    match findNodesBad (graphNodes g) with
    | some bad => some bad
    | none => findGraphsBad rest

/-- `Array.isArray(dataset) ? dataset : [dataset]`. -/
def asGraphList (dataset : Json) : List Json :=
  match dataset with
  | .arr xs => xs
  | d => [d]

/-- Source function `findFirstNonArrayPredicate` (the returned record is
reduced to the offending key/value pair). -/
def findFirstNonArrayPredicate (dataset : Json) : Option (String × Json) :=
  findGraphsBad (asGraphList dataset)

/-- Modelled from the spec: `urdf.load` on a whole dataset — the external
store ingests each `{"@id": gid, "@graph": nodes}` object with union
semantics (§4.B). -/
def Store.loadDataset (st : Store) (dataset : Json) : Store :=
  (asGraphList dataset).foldl
    (fun (acc : Store) (g : Json) =>
      match g.get "@id", g.get "@graph" with
      | some (Json.str gid), some (Json.arr ns) => acc.loadGraph gid ns
      | _, _ => acc) st

/-- The guarded tail of `loadApplicationFromFlows`: run the walker; on an
offender throw (`none`: nothing written), else clear the application graph
and load the dataset. -/
def submitAppDoc (st : Store) (gidApp : String) (dataset : Json) :
    Option Store :=
  if (findFirstNonArrayPredicate dataset).isSome then none
  else some ((st.clear gidApp).loadDataset dataset)

/-- The specification's invariant, stated independently of the walker:
every key other than `@id` of every node in every graph of the dataset
maps to an array. -/
def PredArraysOk (dataset : Json) : Prop :=
  ∀ g ∈ asGraphList dataset,
    ∀ n ∈ graphNodes g, ∀ kvs, nodeEntries n = some kvs →
      ∀ kv ∈ kvs, kv.1 ≠ "@id" → kv.2.isArr = true

theorem findNodeBadKey_none_iff (kvs : List (String × Json)) :
    findNodeBadKey kvs = none ↔
      ∀ kv ∈ kvs, kv.1 ≠ "@id" → kv.2.isArr = true := by
  induction kvs with
  | nil => simp [findNodeBadKey]
  | cons kv rest ih =>
    obtain ⟨p, v⟩ := kv
    by_cases hp : p = "@id"
    · simp [findNodeBadKey, hp, ih]
    · by_cases hv : v.isArr = true
      · rw [findNodeBadKey, if_neg hp, if_pos hv, ih]
        constructor
        · intro h kv hkv hne
          rcases List.mem_cons.mp hkv with hkv | hkv
          · rw [hkv]; exact hv
          · exact h kv hkv hne
        · intro h kv hkv hne
          exact h kv (List.mem_cons_of_mem _ hkv) hne
      · rw [findNodeBadKey, if_neg hp, if_neg hv]
        simp only [reduceCtorEq, false_iff, not_forall]
        exact ⟨(p, v), by simp, hp, by simpa using hv⟩

theorem findNodesBad_none_iff (ns : List Json) :
    findNodesBad ns = none ↔
      ∀ n ∈ ns, ∀ kvs, nodeEntries n = some kvs →
        ∀ kv ∈ kvs, kv.1 ≠ "@id" → kv.2.isArr = true := by
  induction ns with
  | nil => simp [findNodesBad]
  | cons n rest ih =>
    cases he : nodeEntries n with
    | none =>
      simp only [findNodesBad, he, ih]
      constructor
      · intro h n' hn' kvs hkvs
        rcases List.mem_cons.mp hn' with hn' | hn'
        · rw [hn'] at hkvs; rw [he] at hkvs; cases hkvs
        · exact h n' hn' kvs hkvs
      · intro h n' hn' kvs hkvs
        exact h n' (List.mem_cons_of_mem _ hn') kvs hkvs
    | some kvs =>
      cases hb : findNodeBadKey kvs with
      | some bad =>
        simp only [findNodesBad, he, hb]
        constructor
        · intro h; cases h
        · intro h
          have := h n (List.mem_cons_self _ _) kvs he
          have hnone := (findNodeBadKey_none_iff kvs).mpr this
          rw [hnone] at hb; cases hb
      | none =>
        simp only [findNodesBad, he, hb, ih]
        constructor
        · intro h n' hn' kvs' hkvs'
          rcases List.mem_cons.mp hn' with hn' | hn'
          · rw [hn'] at hkvs'
            rw [he] at hkvs'
            injection hkvs' with hkvs'
            subst hkvs'
            exact (findNodeBadKey_none_iff kvs).mp hb
          · exact h n' hn' kvs' hkvs'
        · intro h n' hn' kvs' hkvs'
          exact h n' (List.mem_cons_of_mem _ hn') kvs' hkvs'

theorem findGraphsBad_none_iff (gs : List Json) :
    findGraphsBad gs = none ↔
      ∀ g ∈ gs, ∀ n ∈ graphNodes g, ∀ kvs, nodeEntries n = some kvs →
        ∀ kv ∈ kvs, kv.1 ≠ "@id" → kv.2.isArr = true := by
  induction gs with
  | nil => simp [findGraphsBad]
  | cons g rest ih =>
    cases hn : findNodesBad (graphNodes g) with
    | some bad =>
      simp only [findGraphsBad, hn]
      constructor
      · intro h; cases h
      · intro h
        have := (findNodesBad_none_iff (graphNodes g)).mpr
          (fun n hmem => h g (List.mem_cons_self _ _) n hmem)
        rw [this] at hn; cases hn
    | none =>
      simp only [findGraphsBad, hn, ih]
      constructor
      · intro h g' hg' n hn' kvs hkvs
        rcases List.mem_cons.mp hg' with hg' | hg'
        · subst hg'
          exact (findNodesBad_none_iff (graphNodes g')).mp hn n hn' kvs hkvs
        · exact h g' hg' n hn' kvs hkvs
      · intro h g' hg' n hn' kvs hkvs
        exact h g' (List.mem_cons_of_mem _ hg') n hn' kvs hkvs

/-- C6.  If any node of the dataset has a key other than `@id` whose value
is not array-shaped, the submission aborts with nothing written to the
store; conversely, whenever the submission goes through, every key other
than `@id` of every node is array-shaped — hence (with the spec-modelled
store, which ingests the dataset as given) every predicate key other than
`@id` in every node stored by this load maps to an array. -/
theorem c6_array_invariant_guard (st : Store) (gidApp : String)
    (dataset : Json) :
    (¬ PredArraysOk dataset → submitAppDoc st gidApp dataset = none) ∧
    (∀ st', submitAppDoc st gidApp dataset = some st' →
      PredArraysOk dataset ∧ st' = (st.clear gidApp).loadDataset dataset) := by
  have hiff : findFirstNonArrayPredicate dataset = none ↔ PredArraysOk dataset := by
    rw [findFirstNonArrayPredicate, PredArraysOk]
    exact findGraphsBad_none_iff _
  constructor
  · intro hbad
    rw [submitAppDoc, if_pos]
    rcases hopt : findFirstNonArrayPredicate dataset with _ | bad
    · exact absurd (hiff.mp hopt) hbad
    · simp
  · intro st' hst'
    rw [submitAppDoc] at hst'
    rcases hopt : findFirstNonArrayPredicate dataset with _ | bad
    · rw [if_neg (by simp [hopt])] at hst'
      injection hst' with hst'
      exact ⟨hiff.mp hopt, hst'.symm⟩
    · rw [if_pos (by simp [hopt])] at hst'
      cases hst'

/-- A small well-shaped application dataset used as a concrete input. -/
def sampleAppDoc : Json :=
  Json.arr [Json.obj [("@id", Json.str "urn:nrua:app"),
    ("@graph", Json.arr [Json.obj [("@id", Json.str "urn:nrua:n1"),
      ("urn:p", Json.arr [Json.obj [("@value", Json.num 1)]])]])]]

/-- C6, witness: the sample dataset passes the guard (the submission is
the clear-then-load result, by `rfl`), hence all its predicates are
array-shaped. -/
theorem c6_array_invariant_guard_witness : PredArraysOk sampleAppDoc :=
  ((c6_array_invariant_guard ⟨[], []⟩ "urn:nrua:app" sampleAppDoc).2
    ((Store.clear ⟨[], []⟩ "urn:nrua:app").loadDataset sampleAppDoc) rfl).1

/-! ### String helpers shared by the inference orchestrator -/

/-- `pre` is a prefix of `s` (JS `String.prototype.startsWith`). -/
def strStartsWith (s pre : String) : Bool := pre.data.isPrefixOf s.data

/-- `sub` occurs inside `s` (JS `String.prototype.includes`). -/
def strIncludes (s sub : String) : Bool := decide (sub.data <:+: s.data)

/-- JS `String.prototype.trim`: strip leading and trailing whitespace. -/
def jsTrim (s : String) : String :=
  String.mk (((s.data.dropWhile isJsWs).reverse.dropWhile isJsWs).reverse)

/-- JS `String.prototype.toLowerCase` (ASCII case folding suffices for the
language tags involved). -/
def lowerStr (s : String) : String := String.mk (s.data.map Char.toLower)

/-- One step of a JS truthiness-guarded property chain (`a && a.k`). -/
def jsField (x : Option Json) (k : String) : Option Json :=
  match x with
  | some v => if jsTruthy v then v.get k else none
  | none => none

/-- JS nullish coalescing `??`: skip `null`/`undefined` only. -/
def nullish (x : Option Json) : Option Json :=
  match x with
  | some Json.null => none
  | v => v

/-! ### Deep query expansion (component 4.C, deep-query mode)

Source: `expandCompressedInString` (lines 1105-1121) and
`expandCompressedQueryDeep` (lines 1132-1156). -/

/-- Word character of the JS regex `\b` boundary class. -/
def isWordChar (c : Char) : Bool := c.isAlphanum || c = '_'

/-- First replace of `expandCompressedInString`: `/<z:(\d+)>/g`, expanding
`<z:N>` to `<iri>` when the entry is truthy and keeping the match
otherwise. -/
def expandAngleTokens (Z : List String) : List Char → List Char
  | [] => []
  | c :: rest =>
    if c = '<' ∧ rest.take 2 = ['z', ':'] then
      let rest2 := rest.drop 2
      let digs := rest2.takeWhile Char.isDigit
      let rest3 := rest2.drop digs.length
      if digs ≠ [] ∧ rest3.head? = some '>' then
        (match Z[decValue digs]? with
         | some iri =>
           if iri = "" then '<' :: 'z' :: ':' :: (digs ++ ['>'])
           else '<' :: (iri.data ++ ['>'])
         | none => '<' :: 'z' :: ':' :: (digs ++ ['>'])) ++
          expandAngleTokens Z rest3.tail
      else c :: expandAngleTokens Z rest
    else c :: expandAngleTokens Z rest
termination_by cs => cs.length
decreasing_by
  all_goals try simp [List.length_tail, List.length_drop]
  all_goals omega

/-- No-word-boundary test used for `\b` next to a word character: the
neighbouring character (when present) must not be a word character. -/
def boundaryNonWord : Option Char → Bool
  | some p => ! isWordChar p
  | none => true

/-- Second replace of `expandCompressedInString`: `/\bz:(\d+)\b/g` with
the previous character threaded for the leading boundary; the trailing
boundary requires the next character to be a non-word character (or the
end). -/
def expandBareTokens (Z : List String) (prev : Option Char) :
    List Char → List Char
  | [] => []
  | c :: rest =>
    if c = 'z' ∧ boundaryNonWord prev = true ∧ rest.take 1 = [':'] then
      let rest2 := rest.drop 1
      let digs := rest2.takeWhile Char.isDigit
      let rest3 := rest2.drop digs.length
      if digs ≠ [] ∧ boundaryNonWord rest3.head? = true then
        (match Z[decValue digs]? with
         | some iri => if iri = "" then 'z' :: ':' :: digs else iri.data
         | none => 'z' :: ':' :: digs) ++
          expandBareTokens Z digs.getLast? rest3
      else c :: expandBareTokens Z (some c) rest
    else c :: expandBareTokens Z (some c) rest
termination_by cs => cs.length
decreasing_by
  all_goals try simp [List.length_drop]
  all_goals omega

/-- Source function `expandCompressedInString`: the two replaces in
sequence. -/
def expandCompressedInString (Z : List String) (s : String) : String :=
  String.mk (expandBareTokens Z none (expandAngleTokens Z s.data))

mutual
/-- Source function `expandCompressedQueryDeep`: strings are expanded
in-string; RDFJS `NamedNode` objects with an exact `z:N` value and a
truthy entry are rebuilt as two-field nodes, otherwise their `value` field
is expanded in place; arrays and objects recurse (keys untouched). -/
def expandCompressedQueryDeep (Z : List String) : Json → Json
  | .null => .null
  | .str s => .str (expandCompressedInString Z s)
  | .arr xs => .arr (expandQueryList Z xs)
  | .obj kvs =>
    match (Json.obj kvs).get "termType", (Json.obj kvs).get "value" with
    | some (Json.str tt), some (Json.str v) =>
      if tt = "NamedNode" then
        match parseZToken v with
        | some idx =>
          match Z[idx]? with
          | some iri =>
            if iri = "" then
              .obj (setKey kvs "value" (.str (expandCompressedInString Z v)))
            else .obj [("termType", .str "NamedNode"), ("value", .str iri)]
          | none => .obj (setKey kvs "value" (.str (expandCompressedInString Z v)))
        | none => .obj (setKey kvs "value" (.str (expandCompressedInString Z v)))
      else .obj (expandQueryObj Z kvs)
    | _, _ => .obj (expandQueryObj Z kvs)
  | j => j
/-- Array branch of `expandCompressedQueryDeep`. -/
def expandQueryList (Z : List String) : List Json → List Json
  | [] => []
  | x :: xs => expandCompressedQueryDeep Z x :: expandQueryList Z xs
/-- Object branch of `expandCompressedQueryDeep` (values only). -/
def expandQueryObj (Z : List String) :
    List (String × Json) → List (String × Json)
  | [] => []
  | (k, v) :: rest => (k, expandCompressedQueryDeep Z v) :: expandQueryObj Z rest
end

/-! ### Eyeling derived-fact decoding (lines 1863-1951) -/

/-- String-valued property read: `some s` when `t[k]` is the string `s`. -/
def Json.getStr (t : Json) (k : String) : Option String :=
  match t.get k with
  | some (Json.str s) => some s
  | _ => none

/-- Source function `looksLikeIri`. -/
def looksLikeIri (v : Json) : Bool :=
  match v with
  | .str s => strStartsWith s "urn:" || strStartsWith s "http://" ||
      strStartsWith s "https://" || strStartsWith s "_:"
  | _ => false

/-- Global replace of the two-character sequence `a b` by `r` (the escape
replaces of `stripN3Quotes`, each one a full pass). -/
def replacePair (a b : Char) (r : List Char) : List Char → List Char
  | [] => []
  | [c] => [c]
  | c :: d :: rest =>
    if c = a ∧ d = b then r ++ replacePair a b r rest
    else c :: replacePair a b r (d :: rest)

/-- Source function `stripN3Quotes`: non-strings stringify (`null` to
`""`); a trimmed double-quoted string is unquoted and unescaped (the five
replaces in source order), anything else is returned trimmed. -/
def stripN3Quotes (v : Json) : String :=
  match v with
  | .str s =>
    let cs := (jsTrim s).data
    if cs.length ≥ 2 ∧ cs.head? = some '"' ∧ cs.getLast? = some '"' then
      let inner := (cs.drop 1).dropLast
      String.mk
        (replacePair '\\' 't' ['\t']
          (replacePair '\\' 'r' ['\r']
            (replacePair '\\' 'n' ['\n']
              (replacePair '\\' '\\' ['\\']
                (replacePair '\\' '"' ['"'] inner)))))
    else String.mk cs
  | .null => ""
  | other => jsToString other

/-- Source function `eyelingDfToSpo`: the truthiness-guarded walk
`df.fact.{s,p,o}.value`; the subject and predicate values are the term
strings (falsy ones rejected), the object may be any non-null value. -/
def eyelingDfToSpo (df : Json) : Option (String × String × Json) :=
  let sv := jsField (jsField (jsField (some df) "fact") "s") "value"
  let pv := jsField (jsField (jsField (some df) "fact") "p") "value"
  let ov := jsField (jsField (jsField (some df) "fact") "o") "value"
  match sv, pv, ov with
  | some (Json.str s), some (Json.str p), some o =>
    if s ≠ "" ∧ p ≠ "" ∧ ¬ o.isNull then some (s, p, o) else none
  | _, _, _ => none

/-- Source function `eyelingObjectToJsonLd`. -/
def eyelingObjectToJsonLd (oVal : Json) : Json :=
  if looksLikeIri oVal then .obj [("@id", oVal)]
  else .obj [("@value", .str (stripN3Quotes oVal))]

/-- Push of one predicate value onto a subject node (`if (!node[p])
node[p] = []; node[p].push(o)`); a falsy existing value is reset to an
empty array first.  (A truthy non-array value would make the JS `push`
throw; such a value is never produced here and is left unchanged.) -/
def pushPred (node : Json) (p : String) (o : Json) : Json :=
  match node with
  | .obj kvs =>
    match (Json.obj kvs).get p with
    | some (Json.arr xs) => .obj (setKey kvs p (.arr (xs ++ [o])))
    | some v => if jsTruthy v then node else .obj (setKey kvs p (.arr [o]))
    | none => .obj (setKey kvs p (.arr [o]))
  | other => other

/-- Source function `addToBySubject` (lines 1943-1951): the `bySubject`
`Map` as an insertion-ordered association list.  The inline push of the
SPARQL rule path (`subjNode[pIri] = subjNode[pIri] || []; push`) has the
same semantics and is represented by the same function. -/
def addToBySubject (m : List (String × Json)) (sId pIri : String) (o : Json) :
    List (String × Json) :=
  match m.find? (fun kv => kv.1 = sId) with
  | none => m ++ [(sId, Json.obj [("@id", .str sId), (pIri, .arr [o])])]
  | some _ => m.map fun kv => if kv.1 = sId then (sId, pushPred kv.2 pIri o) else kv

/-! ### SPARQL binding helpers (lines 1962-2031 and 2106-2165) -/

/-- Source function `escapeNTriplesString` (five sequential global
replaces). -/
def escapeNTriplesString (s : String) : String :=
  let p1 := s.data.flatMap (fun c => if c = '\\' then ['\\', '\\'] else [c])
  let p2 := p1.flatMap (fun c => if c = '"' then ['\\', '"'] else [c])
  let p3 := p2.flatMap (fun c => if c = '\n' then ['\\', 'n'] else [c])
  let p4 := p3.flatMap (fun c => if c = '\r' then ['\\', 'r'] else [c])
  String.mk (p4.flatMap (fun c => if c = '\t' then ['\\', 't'] else [c]))

/-- Source function `termToNTriples`; `none` models a thrown error. -/
def termToNTriples (term : Json) : Option String :=
  match term with
  | .null => none
  | .obj kvs =>
    let t := lowerStr (match (Json.obj kvs).get "type" with
      | some (Json.str ty) => if ty = "" then "" else ty
      | _ => "")
    let v := (Json.obj kvs).get "value"
    if t = "uri" then
      match v with
      | some (Json.str s) => if s = "" then none else some ("<" ++ s ++ ">")
      | _ => none
    else if t = "bnode" ∨ t = "blanknode" then
      match v with
      | some (Json.str s) =>
        if s = "" then none
        else if strStartsWith s "_:" then some s else some ("_:" ++ s)
      | _ => none
    else if t = "literal" then
      let lex := escapeNTriplesString (match v with
        | some (Json.str s) => s
        | some Json.null => ""
        | some other => jsToString other
        | none => "")
      match nullish ((Json.obj kvs).get "xml:lang") <|>
          nullish ((Json.obj kvs).get "lang") with
      | some lang =>
        if jsTruthy lang then
          some ("\x22" ++ lex ++ "\x22@" ++ jsToString lang)
        else mkLiteralTail kvs lex
      | none => mkLiteralTail kvs lex
    else
      match (Json.obj kvs).get "@id" with
      | some (Json.str id) =>
        if strStartsWith id "_:" then some id else some ("<" ++ id ++ ">")
      | _ => none
  | .str s =>
    if strStartsWith s "_:" then some s else some ("<" ++ s ++ ">")
  | _ => none
where
  /-- The datatype/plain tail of the literal branch. -/
  mkLiteralTail (kvs : List (String × Json)) (lex : String) : Option String :=
    match (Json.obj kvs).get "datatype" with
    | some dt =>
      if jsTruthy dt then
        some ("\x22" ++ lex ++ "\x22^^<" ++ jsToString dt ++ ">")
      else some ("\x22" ++ lex ++ "\x22")
    | none => some ("\x22" ++ lex ++ "\x22")

/-- Source function `bindingToNTripleLine`; the first failing term aborts
the line (a throw caught by the caller, which skips the binding). -/
def bindingToNTripleLine (b : Json) : Option String :=
  match termToNTriples ((b.get "s").getD .null),
      termToNTriples ((b.get "p").getD .null),
      termToNTriples ((b.get "o").getD .null) with
  | some s, some p, some o => some (s ++ " " ++ p ++ " " ++ o ++ " .")
  | _, _, _ => none

/-- Source function `normalizeQueryResults`. -/
def normalizeQueryResults (qres : Json) : List Json :=
  match qres with
  | .arr xs => xs
  | other =>
    if jsTruthy other then
      match other.get "results" with
      | some (Json.arr xs) => xs
      | _ => []
    else []

/-- Source function `hasSpo` (only the literal `s`, `p`, `o` keys). -/
def hasSpo (binding : Json) : Bool :=
  match binding with
  | .obj _ =>
    (nullish (binding.get "s")).isSome && (nullish (binding.get "p")).isSome &&
      (nullish (binding.get "o")).isSome
  | _ => false

/-- Scheme test `/^[a-zA-Z][a-zA-Z0-9+.-]*:/` of `bindingToJsonLdObject`:
a letter, then scheme characters, then a colon (the class excludes `:`,
so the greedy run ends exactly at the first non-class character, which
must be the colon). -/
def hasSchemeColon (s : String) : Bool :=
  match s.data with
  | c :: rest =>
    c.isAlpha &&
      (match rest.dropWhile (fun d => d.isAlphanum || d = '+' || d = '.' || d = '-') with
       | ':' :: _ => true
       | _ => false)
  | [] => false

/-- Source function `bindingToIri` (lines 2155-2165); `none` models the
`null` result and absent/`undefined` values. -/
def bindingToIri (term : Option Json) : Option String :=
  match term with
  | none => none
  | some Json.null => none
  | some (Json.str s) => some s
  | some (Json.obj kvs) =>
    if (Json.obj kvs).getStr "termType" = some "NamedNode" then
      match (Json.obj kvs).get "value" with
      | some (Json.str v) => some v
      | _ => none
    else if (Json.obj kvs).getStr "type" = some "uri" then
      match (Json.obj kvs).get "value" with
      | some (Json.str v) => some v
      | _ => none
    else
      match (Json.obj kvs).get "@id" with
      | some (Json.str id) => some id
      | _ =>
        match (Json.obj kvs).get "value" with
        | some (Json.str v) => some v
        | _ => none
  | some _ => none

/-- Source function `bindingToJsonLdObject` (lines 2106-2153); `none`
models the `null` result for a nullish term. -/
def bindingToJsonLdObject (term : Option Json) : Option Json :=
  match term with
  | none => none
  | some Json.null => none
  | some (Json.str s) =>
    if hasSchemeColon s then some (.obj [("@id", .str s)])
    else some (.obj [("@value", .str s)])
  | some (Json.obj kvs) =>
    let t := Json.obj kvs
    if t.getStr "termType" = some "NamedNode" then
      some (.obj [("@id", (t.get "value").getD .null)])
    else if t.getStr "termType" = some "BlankNode" then
      some (.obj [("@id", .str ("_:" ++ jsToString ((t.get "value").getD .null)))])
    else if t.getStr "termType" = some "Literal" then
      let lit := [("@value", (t.get "value").getD .null)]
      let lit := match t.get "language" with
        | some l => if jsTruthy l then lit ++ [("@language", l)] else lit
        | none => lit
      let dt : Option String := match t.get "datatype" with
        | some (Json.obj dkvs) =>
          (match (Json.obj dkvs).get "value" with
           | some (Json.str dv) => if dv = "" then none else some dv
           | _ => none)
        | some (Json.str ds) => if ds = "" then none else some ds
        | _ => none
      let lit := match dt with
        | some dv =>
          if dv ≠ "http://www.w3.org/2001/XMLSchema#string" then
            lit ++ [("@type", .str dv)]
          else lit
        | none => lit
      some (.obj lit)
    else
      let value := nullish (t.get "value") <|> nullish (t.get "@value") <|>
        nullish (t.get "@id")
      if t.getStr "type" = some "uri" then
        some (.obj [("@id", value.getD .null)])
      else if t.getStr "type" = some "bnode" then
        some (.obj [("@id", .str ("_:" ++ jsToString (value.getD .null)))])
      else if t.getStr "type" = some "literal" then
        let lit := [("@value", value.getD .null)]
        let lit := match t.get "xml:lang" with
          | some l => if jsTruthy l then lit ++ [("@language", l)] else lit
          | none => lit
        let lit := match t.get "datatype" with
          | some d =>
            if jsTruthy d && (match d with
                | Json.str ds => ds != "http://www.w3.org/2001/XMLSchema#string"
                | _ => true) then
              lit ++ [("@type", d)]
            else lit
          | none => lit
        some (.obj lit)
      else
        match t.get "@id" with
        | some (Json.str id) => some (.obj [("@id", .str id)])
        | _ =>
          match t.get "@value" with
          | some vv =>
            let lit := [("@value", vv)]
            let lit := match t.get "@language" with
              | some l => if jsTruthy l then lit ++ [("@language", l)] else lit
              | none => lit
            let lit := match t.get "@type" with
              | some ty => if jsTruthy ty then lit ++ [("@type", ty)] else lit
              | none => lit
            some (.obj lit)
          | none =>
            match value with
            | some (Json.str vs) =>
              if hasSchemeColon vs then some (.obj [("@id", .str vs)])
              else some (.obj [("@value", .str vs)])
            | _ => some (.obj [("@value", .str "[object Object]")])
  | some other => some (.obj [("@value", .str (jsToString other))])

/-! ### Rule decoding (lines 1839-1854 and 2043-2096)

The `SCHEMA_*` constants are stored compressed (`z(iri)`) and always read
back through `expandZToken`; by the dictionary round-trip (`z` then
`expandZToken` restores a nonempty dictionary entry, and is the identity
on IRIs outside the dictionary, which never look like `z:N` tokens) the
keys used at runtime are exactly the plain IRIs, which are therefore used
literally here. -/

def NRUA_RULE : String :=
  "https://w3id.org/nodered-ontology-based-program-analysis/nodered-user-application-ontology#Rule"

def SCHEMA_TEXT : String := "https://schema.org/text"

def SCHEMA_PROGRAMMING_LANGUAGE : String := "https://schema.org/programmingLanguage"

def SCHEMA_ENCODING_FORMAT : String := "https://schema.org/encodingFormat"

def SCHEMA_HASPART : String := "https://schema.org/hasPart"

def SCHEMA_SOFTWARE_SOURCE_CODE : String := "https://schema.org/SoftwareSourceCode"

/-- Source function `asArray` (lines 2436-2438). -/
def asArray (x : Option Json) : List Json :=
  match x with
  | some (Json.arr xs) => xs
  | some v => if jsTruthy v then [v] else []
  | none => []

/-- Source function `isRuleNode` (lines 2440-2443): the `@type` array (or
scalar) contains the Rule IRI or its compressed token. -/
def isRuleNode (Z : List String) (n : Json) : Bool :=
  (asArray (n.get "@type")).any fun v =>
    match v with
    | Json.str s => s = NRUA_RULE ∨ s = z Z NRUA_RULE
    | _ => false

/-- Source function `getPropFirstValue` (lines 2087-2096). -/
def getPropFirstValue (node : Json) (iri : String) : Option Json :=
  match node.get iri with
  | some (Json.arr (v :: _)) =>
    match v with
    | Json.obj kvs =>
      match (Json.obj kvs).get "@value" with
      | some x => some x
      | none =>
        match (Json.obj kvs).get "@id" with
        | some x => some x
        | none => some v
    | _ => some v
  | _ => none

/-- Source function `normalizeLang` (lines 2043-2046). -/
def normalizeLang (x : Option Json) : String :=
  match x with
  | none => ""
  | some v => if jsTruthy v then lowerStr (jsTrim (jsToString v)) else ""

/-- Source function `isN3Rule` (lines 2048-2059). -/
def isN3Rule (rule : Json) : Bool :=
  let lang := normalizeLang (getPropFirstValue rule SCHEMA_PROGRAMMING_LANGUAGE)
  let fmt := normalizeLang (getPropFirstValue rule SCHEMA_ENCODING_FORMAT)
  lang = "n3" || lang = "notation3" || strIncludes lang "n3" ||
    strIncludes fmt "n3" || strIncludes fmt "notation3"

/-- Source function `extractN3ProjectionSparql` (lines 2061-2085): walk
the `schema:hasPart` references, dereference through the id-indexed view,
and return the first SPARQL text of a part typed `schema:SoftwareSourceCode`
or declaring language `sparql`. -/
def extractN3ProjectionSparql (rule : Json) (nodesById : List (String × Json)) :
    Option String :=
  match rule.get SCHEMA_HASPART with
  | some (Json.arr parts@(_ :: _)) => walk parts
  | _ => none
where
  walk : List Json → Option String
  | [] => none
  | partRef :: rest =>
    match partRef with
    | Json.obj kvs =>
      let part :=
        match (Json.obj kvs).getStr "@id" with
        | some pid =>
          if pid ≠ "" then
            match nodesById.find? (fun kv => kv.1 = pid) with
            | some kv => kv.2
            | none => Json.obj kvs
          else Json.obj kvs
        | none => Json.obj kvs
      let pl := normalizeLang (getPropFirstValue part SCHEMA_PROGRAMMING_LANGUAGE)
      let t := asArray (part.get "@type")
      let hasSSC := t.any fun v =>
        match v with
        | Json.str s => s = SCHEMA_SOFTWARE_SOURCE_CODE
        | _ => false
      if hasSSC || pl = "sparql" then
        match getPropFirstValue part SCHEMA_TEXT with
        | some (Json.str q) => if q.data.all isJsWs then walk rest else some q
        | _ => walk rest
      else walk rest
    | _ => walk rest

/-! ### Inference orchestration (lines 2186-2423)

The SPARQL evaluator and the optional N3 reasoner are external black
boxes; a `RuleOracle` carries their observable behaviour for one cycle.
An `Except.error` result of `query` models a thrown evaluator error:
inside the N3 projection it is caught (the rule is skipped), on the direct
SPARQL path it propagates to the surrounding try/catch of the whole
cycle. -/

/-- The internal helper-predicate prefix skipped on the N3 path. -/
def INTERNAL_PRED_PV : String := "urn:nrua:pv:"

/-- The N3 derived-fact collection loop (lines 2318-2335): decode each
df, drop triples whose predicate starts with the internal prefix, and
aggregate the rest by subject. -/
def n3CollectDerived (m : List (String × Json)) (dfs : List Json) :
    List (String × Json) :=
  dfs.foldl
    (fun m df =>
      match eyelingDfToSpo df with
      | none => m
      | some (sId, pIri, o) =>
        let oJson := eyelingObjectToJsonLd o
        if strStartsWith pIri INTERNAL_PRED_PV then m
        else addToBySubject m sId pIri oJson) m

/-- The SPARQL rule binding loop (lines 2353-2374): resolve the `s`/`p`/`o`
synonyms with nullish coalescing, decode the terms, skip falsy ones and
push the triple by subject — with no predicate-prefix filtering. -/
def sparqlBindingFold (m : List (String × Json)) (bindings : List Json) :
    List (String × Json) :=
  bindings.foldl
    (fun m b =>
      let sTerm := nullish (b.get "s") <|> nullish (b.get "?s") <|>
        nullish (b.get "subject") <|> nullish (b.get "S")
      let pTerm := nullish (b.get "p") <|> nullish (b.get "?p") <|>
        nullish (b.get "predicate") <|> nullish (b.get "P")
      let oTerm := nullish (b.get "o") <|> nullish (b.get "?o") <|>
        nullish (b.get "object") <|> nullish (b.get "O")
      match bindingToIri sTerm, bindingToIri pTerm, bindingToJsonLdObject oTerm with
      | some sIri, some pIri, some oJson =>
        if sIri = "" ∨ pIri = "" then m
        else addToBySubject m sIri pIri oJson
      | _, _, _ => m) m

/-- Black-box behaviour of the evaluator and reasoner during one cycle. -/
structure RuleOracle where
  query : String → Except String Json
  reasonerAvailable : Bool
  reasonerFails : String → Bool
  derivedFacts : String → List Json

/-- Execution of one rule of the loop (lines 2229-2374), folding into the
`bySubject` accumulator; `Except.error` is an uncaught evaluator throw of
the direct SPARQL path. -/
def execRule (Z : List String) (o : RuleOracle)
    (nodesById : List (String × Json)) (m : List (String × Json))
    (rule : Json) : Except String (List (String × Json)) :=
  match getPropFirstValue rule SCHEMA_TEXT with
  | some (Json.str programText) =>
    if programText.data.all isJsWs then .ok m
    else if isN3Rule rule then
      match extractN3ProjectionSparql rule nodesById with
      | none => .ok m
      | some projection =>
        match o.query (rewriteQuery Z projection) with
        | .error _ => .ok m
        | .ok projResCompressed =>
          let projRes := expandCompressedQueryDeep Z projResCompressed
          let bindings := normalizeQueryResults projRes
          let okBindings := bindings.filter hasSpo
          let factsLines := okBindings.filterMap bindingToNTripleLine
          let factsText := String.intercalate "\n" factsLines
          let n3Input := factsText ++ "\n\n" ++ programText
          if ¬ o.reasonerAvailable then .ok m
          else if o.reasonerFails n3Input then .ok m
          else .ok (n3CollectDerived m (o.derivedFacts n3Input))
    else
      match o.query (rewriteQuery Z programText) with
      | .error e => .error e
      | .ok qresCompressed =>
        let qres := expandCompressedQueryDeep Z qresCompressed
        .ok (sparqlBindingFold m (normalizeQueryResults qres))
  | _ => .ok m

/-- The rule loop over all Rule nodes. -/
def runRuleLoop (Z : List String) (o : RuleOracle)
    (nodesById : List (String × Json)) (rules : List Json) :
    Except String (List (String × Json)) :=
  rules.foldlM (execRule Z o nodesById) []

/-- The `@type`-to-array normalization applied to each node before the
load (lines 2382-2386). -/
def normalizeTypeToArray (n : Json) : Json :=
  match n with
  | .obj kvs =>
    match (Json.obj kvs).get "@type" with
    | some v =>
      if jsTruthy v ∧ ¬ v.isArr then .obj (setKey kvs "@type" (.arr [v]))
      else n
    | none => n
  | _ => n

/-- The id-indexed view of the rules graph (lines 2209-2214, a JS `Map`
where a later node with the same `@id` replaces the earlier entry). -/
def buildNodesById (rulesGraph : List Json) : List (String × Json) :=
  rulesGraph.foldl
    (fun m n =>
      match n with
      | Json.obj kvs =>
        match (Json.obj kvs).getStr "@id" with
        | some id => setKey m id n
        | none => m
      | _ => m) []

/-- Source function `recomputeInferencesFromRules`: read the rules graph
(empty → clear the inferred graph and succeed), execute the rules, then
replace the inferred graph by clear + load of the compressed aggregate.
`clearFails`/`loadFails` model `urdf.clear`/`urdf.load` throwing during
the replace; per the spec's atomicity contract (§7) a failed store
mutation leaves the store as it was.  The returned flag is the `ok` field
of the published payload — `false` exactly on the catch path. -/
def recomputeInferencesFromRules (Z : List String) (o : RuleOracle)
    (gidRules gidInferred : String) (clearFails loadFails : Bool)
    (st : Store) : Store × Bool :=
  let emptyBranch : Store × Bool :=
    if clearFails then (st, false) else (st.clear gidInferred, true)
  match st.findGraph gidRules with
  | none => emptyBranch
  | some compressedRulesGraph =>
    if compressedRulesGraph.length = 0 then emptyBranch
    else
      let rulesGraph := expandGraphList Z compressedRulesGraph
      let nodesById := buildNodesById rulesGraph
      let rules := rulesGraph.filter (isRuleNode Z)
      match runRuleLoop Z o nodesById rules with
      | .error _ => (st, false)
      | .ok bySubject =>
        let inferredGraphToLoad :=
          (bySubject.map (fun kv => kv.2)).map normalizeTypeToArray
        if clearFails then (st, false)
        else if loadFails then (st.clear gidInferred, false)
        else ((st.clear gidInferred).loadGraph gidInferred
          (compressGraphList Z inferredGraphToLoad), true)

/-- The inferred named graph as observed through `findGraph` (absent =
empty). -/
def inferredView (st : Store) (gid : String) : List Json :=
  (st.findGraph gid).getD []

/-- The fresh computation of one cycle, as the spec describes it: the
empty graph when the rules graph is empty, the compressed aggregate of the
executed rules otherwise, and `none` when the rule loop throws. -/
def freshInferredNodes (Z : List String) (o : RuleOracle)
    (gidRules : String) (st : Store) : Option (List Json) :=
  match st.findGraph gidRules with
  | none => some []
  | some c =>
    if c.length = 0 then some []
    else
      let rulesGraph := expandGraphList Z c
      match runRuleLoop Z o (buildNodesById rulesGraph)
          (rulesGraph.filter (isRuleNode Z)) with
      | .error _ => none
      | .ok bySubject =>
        some (compressGraphList Z
          ((bySubject.map (fun kv => kv.2)).map normalizeTypeToArray))

theorem find_clear_none (st : Store) (gid : String) :
    (st.clear gid).graphs.find? (fun kv => kv.1 = gid) = none := by
  rw [Store.clear]
  induction st.graphs with
  | nil => simp
  | cons g rest ih =>
    by_cases hg : g.1 = gid
    · simpa [List.filter_cons, hg] using ih
    · simpa [List.filter_cons, hg, List.find?_cons, hg] using ih

theorem findGraph_clear (st : Store) (gid : String) :
    (st.clear gid).findGraph gid = none := by
  rw [Store.findGraph, find_clear_none]
  rfl

theorem findGraph_clear_load (st : Store) (gid : String) (ns : List Json) :
    ((st.clear gid).loadGraph gid ns).findGraph gid = some ns := by
  rw [Store.loadGraph, find_clear_none]
  simp only [Option.isSome_none, Bool.false_eq_true, if_false]
  rw [Store.findGraph]
  have : ((st.clear gid).graphs ++ [(gid, ns)]).find? (fun kv => kv.1 = gid)
      = some (gid, ns) := by
    rw [List.find?_append, find_clear_none]
    simp
  rw [Store.clear] at this ⊢
  simp only at this ⊢
  rw [this]
  rfl

/-- C1.  After a successful orchestration cycle (`ok = true`) the inferred
named graph equals the fresh computation; after a failed cycle
(`ok = false`, observed by the caller in the published payload) the
inferred graph equals its prior state or is empty (a failed load follows
the clear) — never a partially populated graph, the store mutations being
atomic per the spec contract. -/
theorem c1_inferred_replace_atomicity (Z : List String) (o : RuleOracle)
    (gidRules gidInferred : String) (clearFails loadFails : Bool)
    (st : Store) :
    ((recomputeInferencesFromRules Z o gidRules gidInferred clearFails
        loadFails st).2 = true →
      some (inferredView (recomputeInferencesFromRules Z o gidRules
        gidInferred clearFails loadFails st).1 gidInferred) =
        freshInferredNodes Z o gidRules st) ∧
    ((recomputeInferencesFromRules Z o gidRules gidInferred clearFails
        loadFails st).2 = false →
      inferredView (recomputeInferencesFromRules Z o gidRules gidInferred
        clearFails loadFails st).1 gidInferred =
          inferredView st gidInferred ∨
      inferredView (recomputeInferencesFromRules Z o gidRules gidInferred
        clearFails loadFails st).1 gidInferred = []) := by
  rw [recomputeInferencesFromRules, freshInferredNodes]
  cases hfg : st.findGraph gidRules with
  | none =>
    cases clearFails with
    | true => simp
    | false =>
      simp only [if_false, Bool.false_eq_true]
      constructor
      · intro _
        simp [inferredView, findGraph_clear]
      · intro h; cases h
  | some c =>
    by_cases hc : c.length = 0
    · simp only [hc, if_pos rfl]
      cases clearFails with
      | true => simp
      | false =>
        simp only [if_false, Bool.false_eq_true]
        constructor
        · intro _
          simp [inferredView, findGraph_clear]
        · intro h; cases h
    · simp only [hc, if_neg hc, if_false]
      cases hrun : runRuleLoop Z o (buildNodesById (expandGraphList Z c))
          ((expandGraphList Z c).filter (isRuleNode Z)) with
      | error e => simp
      | ok bySubject =>
        cases clearFails with
        | true => simp
        | false =>
          cases loadFails with
          | true =>
            simp only [if_false, Bool.false_eq_true]
            constructor
            · intro h; cases h
            · intro _
              right
              simp [inferredView, findGraph_clear]
          | false =>
            simp only [if_false, Bool.false_eq_true]
            constructor
            · intro _
              simp [inferredView, findGraph_clear_load]
            · intro h; cases h

/-- C1, witness: the empty store has no rules graph; the cycle succeeds
and the inferred graph equals the (empty) fresh computation. -/
theorem c1_inferred_replace_atomicity_witness :
    some (inferredView (recomputeInferencesFromRules []
      ⟨fun _ => .ok .null, false, fun _ => false, fun _ => []⟩
      "urn:nrua:rules" "urn:graph:inferred" false false ⟨[], []⟩).1
        "urn:graph:inferred") =
      freshInferredNodes []
        ⟨fun _ => .ok .null, false, fun _ => false, fun _ => []⟩
        "urn:nrua:rules" ⟨[], []⟩ :=
  (c1_inferred_replace_atomicity []
    ⟨fun _ => .ok .null, false, fun _ => false, fun _ => []⟩
    "urn:nrua:rules" "urn:graph:inferred" false false ⟨[], []⟩).1 rfl

/-! ### C5: the internal-prefix skip applies only to the N3 path -/

/-- A concrete SPARQL rule node (type Rule, program text `"Q"`, no
language slot — the SPARQL path). -/
def c5Rule : Json :=
  Json.obj [("@id", .str "urn:rule1"),
    ("@type", .arr [.str NRUA_RULE]),
    (SCHEMA_TEXT, .arr [.obj [("@value", .str "Q")]])]

/-- A store whose rules graph holds just `c5Rule`. -/
def c5Store : Store := ⟨[("urn:nrua:rules", [c5Rule])], []⟩

/-- An oracle whose evaluator answers every query with one binding whose
predicate is the internal helper predicate `urn:nrua:pv:x`. -/
def c5Oracle : RuleOracle :=
  ⟨fun _ => .ok (.arr [.obj [("s", .str "urn:s"),
      ("p", .str "urn:nrua:pv:x"), ("o", .str "urn:o")]]),
    false, fun _ => false, fun _ => []⟩

/-- No node of the accumulator carries a predicate with the internal
prefix. -/
def NoPvPredicates (m : List (String × Json)) : Prop :=
  ∀ kv ∈ m, ∀ kvs, kv.2 = Json.obj kvs →
    ∀ e ∈ kvs, strStartsWith e.1 INTERNAL_PRED_PV = false

theorem setKey_key_cases (kvs : List (String × Json)) (k : String) (v : Json) :
    ∀ e ∈ setKey kvs k v, e.1 = k ∨ ∃ e' ∈ kvs, e.1 = e'.1 := by
  intro e he
  rw [setKey] at he
  by_cases hex : kvs.any (fun kv => kv.1 = k)
  · rw [if_pos hex] at he
    obtain ⟨e', he', heq⟩ := List.mem_map.mp he
    by_cases h1 : e'.1 = k
    · left
      rw [if_pos h1] at heq
      rw [← heq]
    · right
      rw [if_neg h1] at heq
      exact ⟨e', he', by rw [← heq]⟩
  · rw [if_neg hex] at he
    rcases List.mem_append.mp he with he | he
    · exact Or.inr ⟨e, he, rfl⟩
    · left
      simp only [List.mem_singleton] at he
      rw [he]

theorem pushPred_noPv (node : Json) (p : String) (o : Json)
    (hnode : ∀ kvs, node = Json.obj kvs →
      ∀ e ∈ kvs, strStartsWith e.1 INTERNAL_PRED_PV = false)
    (hp : strStartsWith p INTERNAL_PRED_PV = false) :
    ∀ kvs, pushPred node p o = Json.obj kvs →
      ∀ e ∈ kvs, strStartsWith e.1 INTERNAL_PRED_PV = false := by
  intro kvs hkvs e he
  cases node with
  | obj kvs0 =>
    have hfrom : e.1 = p ∨ ∃ e' ∈ kvs0, e.1 = e'.1 := by
      cases hget : (Json.obj kvs0).get p with
      | none =>
        simp only [pushPred, hget] at hkvs
        injection hkvs with hkvs
        subst hkvs
        exact setKey_key_cases kvs0 p (Json.arr [o]) e he
      | some v =>
        cases v with
        | arr xs =>
          simp only [pushPred, hget] at hkvs
          injection hkvs with hkvs
          subst hkvs
          exact setKey_key_cases kvs0 p (Json.arr (xs ++ [o])) e he
        | str sv =>
          simp only [pushPred, hget] at hkvs
          by_cases hv : jsTruthy (Json.str sv) = true
          · rw [if_pos hv] at hkvs
            injection hkvs with hkvs
            subst hkvs
            exact Or.inr ⟨e, he, rfl⟩
          · rw [if_neg hv] at hkvs
            injection hkvs with hkvs
            subst hkvs
            exact setKey_key_cases kvs0 p (Json.arr [o]) e he
        | num n =>
          simp only [pushPred, hget] at hkvs
          by_cases hv : jsTruthy (Json.num n) = true
          · rw [if_pos hv] at hkvs
            injection hkvs with hkvs
            subst hkvs
            exact Or.inr ⟨e, he, rfl⟩
          · rw [if_neg hv] at hkvs
            injection hkvs with hkvs
            subst hkvs
            exact setKey_key_cases kvs0 p (Json.arr [o]) e he
        | bool b =>
          simp only [pushPred, hget] at hkvs
          by_cases hv : jsTruthy (Json.bool b) = true
          · rw [if_pos hv] at hkvs
            injection hkvs with hkvs
            subst hkvs
            exact Or.inr ⟨e, he, rfl⟩
          · rw [if_neg hv] at hkvs
            injection hkvs with hkvs
            subst hkvs
            exact setKey_key_cases kvs0 p (Json.arr [o]) e he
        | null =>
          simp only [pushPred, hget] at hkvs
          have hv : jsTruthy Json.null = false := rfl
          rw [hv] at hkvs
          simp only [Bool.false_eq_true, if_false] at hkvs
          injection hkvs with hkvs
          subst hkvs
          exact setKey_key_cases kvs0 p (Json.arr [o]) e he
        | obj okvs =>
          simp only [pushPred, hget] at hkvs
          have hv : jsTruthy (Json.obj okvs) = true := rfl
          rw [hv] at hkvs
          simp only [if_true] at hkvs
          injection hkvs with hkvs
          subst hkvs
          exact Or.inr ⟨e, he, rfl⟩
    rcases hfrom with hfrom | ⟨e2, he2, heq⟩
    · rw [hfrom]
      exact hp
    · rw [heq]
      exact hnode kvs0 rfl e2 he2
  | str sv =>
    have hid : pushPred (Json.str sv) p o = Json.str sv := rfl
    rw [hid] at hkvs
    cases hkvs
  | num n =>
    have hid : pushPred (Json.num n) p o = Json.num n := rfl
    rw [hid] at hkvs
    cases hkvs
  | bool b =>
    have hid : pushPred (Json.bool b) p o = Json.bool b := rfl
    rw [hid] at hkvs
    cases hkvs
  | null =>
    have hid : pushPred Json.null p o = Json.null := rfl
    rw [hid] at hkvs
    cases hkvs
  | arr xs =>
    have hid : pushPred (Json.arr xs) p o = Json.arr xs := rfl
    rw [hid] at hkvs
    cases hkvs

theorem addToBySubject_noPv (m : List (String × Json)) (s p : String)
    (o : Json) (hm : NoPvPredicates m)
    (hp : strStartsWith p INTERNAL_PRED_PV = false) :
    NoPvPredicates (addToBySubject m s p o) := by
  intro kv hkv kvs hkvs e he
  rw [addToBySubject] at hkv
  cases hf : m.find? (fun kv => kv.1 = s) with
  | none =>
    rw [hf] at hkv
    rcases List.mem_append.mp hkv with hkv | hkv
    · exact hm kv hkv kvs hkvs e he
    · simp only [List.mem_singleton] at hkv
      subst hkv
      simp only at hkvs
      injection hkvs with hkvs
      subst hkvs
      rcases List.mem_cons.mp he with he | he
      · rw [he]
        show strStartsWith "@id" INTERNAL_PRED_PV = false
        decide
      · simp only [List.mem_singleton] at he
        rw [he]
        exact hp
  | some kv0 =>
    rw [hf] at hkv
    obtain ⟨kv1, hkv1, heq⟩ := List.mem_map.mp hkv
    by_cases h1 : kv1.1 = s
    · rw [if_pos h1] at heq
      subst heq
      simp only at hkvs
      exact pushPred_noPv kv1.2 p o (fun kvs' h' => hm kv1 hkv1 kvs' h') hp kvs
        hkvs e he
    · rw [if_neg h1] at heq
      subst heq
      exact hm kv1 hkv1 kvs hkvs e he

/-- C5, counterexample.  A full orchestration cycle over a store holding
one SPARQL rule, whose evaluator answers with a binding whose predicate is
the internal helper predicate `urn:nrua:pv:x`, succeeds (`ok = true`) and
persists that predicate into the inferred named graph: the SPARQL rule
path applies no internal-prefix filtering, so the claim's "regardless of
whether the triple was derived by an N3 rule or by a SPARQL rule" fails. -/
theorem c5_pv_skip_counterexample :
    (recomputeInferencesFromRules [] c5Oracle "urn:nrua:rules"
        "urn:graph:inferred" false false c5Store).2 = true ∧
    inferredView (recomputeInferencesFromRules [] c5Oracle "urn:nrua:rules"
        "urn:graph:inferred" false false c5Store).1 "urn:graph:inferred" =
      [Json.obj [("@id", .str "urn:s"),
        ("urn:nrua:pv:x", .arr [Json.obj [("@id", .str "urn:o")]])]] ∧
    strStartsWith "urn:nrua:pv:x" INTERNAL_PRED_PV = true := by
  refine ⟨?_, ?_, by decide⟩
  · with_unfolding_all rfl
  · with_unfolding_all rfl

/-- C5, amended.  (1) The N3 derived-fact loop never persists a triple
whose predicate starts with `urn:nrua:pv:` — the prefix skip is applied
there; (2) the SPARQL rule path aggregates a valid binding unfiltered:
any predicate, including one with the internal prefix, is stored in the
subject node. -/
theorem c5_pv_skip_amended :
    (∀ (m : List (String × Json)) (dfs : List Json), NoPvPredicates m →
      NoPvPredicates (n3CollectDerived m dfs)) ∧
    (∀ (s p : String) (oJ : Json),
      addToBySubject [] s p oJ =
        [(s, Json.obj [("@id", .str s), (p, .arr [oJ])])]) := by
  constructor
  · intro m dfs hm
    induction dfs generalizing m with
    | nil => exact hm
    | cons df rest ih =>
      simp only [n3CollectDerived, List.foldl_cons]
      cases hspo : eyelingDfToSpo df with
      | none =>
        simp only [hspo]
        exact ih m hm
      | some spo =>
        obtain ⟨sId, pIri, o⟩ := spo
        simp only [hspo]
        by_cases hpv : strStartsWith pIri INTERNAL_PRED_PV = true
        · simp only [hpv, if_true]
          exact ih m hm
        · have hpv' : strStartsWith pIri INTERNAL_PRED_PV = false := by
            revert hpv; cases strStartsWith pIri INTERNAL_PRED_PV <;> simp
          simp only [hpv', Bool.false_eq_true, if_false]
          exact ih _ (addToBySubject_noPv m sId pIri _ hm hpv')
  · intro s p oJ
    rw [addToBySubject]
    simp [List.find?]

/-- C5, witness for the amended theorem: a derived N3 fact with the
internal predicate is dropped (the accumulator stays free of `urn:nrua:pv:`
keys), while `addToBySubject` stores an arbitrary pv-predicate binding. -/
theorem c5_pv_skip_amended_witness :
    NoPvPredicates (n3CollectDerived []
      [Json.obj [("fact", Json.obj
        [("s", Json.obj [("value", Json.str "urn:s")]),
         ("p", Json.obj [("value", Json.str "urn:nrua:pv:k")]),
         ("o", Json.obj [("value", Json.str "urn:o")])])]]) :=
  c5_pv_skip_amended.1 []
    [Json.obj [("fact", Json.obj
      [("s", Json.obj [("value", Json.str "urn:s")]),
       ("p", Json.obj [("value", Json.str "urn:nrua:pv:k")]),
       ("o", Json.obj [("value", Json.str "urn:o")])])]]
    (by intro kv hkv; cases hkv)

/-! ### C7: flow-to-graph translation (lines 2561-2865)

Source: `makeId`, `encodeStructuredValue`, `addPropertyValue` and
`buildAppJsonLdFromFlows`.  The JS `graph` array is mutated by pushes and
by reference updates of previously pushed nodes; the embedding threads
the array explicitly, rendering reference mutation as an in-place update
at the node's recorded position (the wiring loop mutates the node object
it pushed) or at the first `@id` match (`graph.find`).  The environment
(`NODE_RED_INSTANCE_ID`, the compressed application gid) is passed as
parameters — the claim's "identical instance configuration". -/

/-- Source function `isPrimitive` (line 2600); the values seen here come
from `JSON.parse`, which yields no `undefined`. -/
def isPrimitive : Json → Bool
  | .null => true
  | .str _ => true
  | .num _ => true
  | .bool _ => true
  | _ => false

/-- UTF-8 bytes of a character (`encodeURIComponent` escapes the UTF-8
encoding of each non-unreserved character). -/
def utf8Bytes (c : Char) : List Nat :=
  let n := c.toNat
  if n < 128 then [n]
  else if n < 2048 then [192 + n / 64, 128 + n % 64]
  else if n < 65536 then [224 + n / 4096, 128 + (n / 64) % 64, 128 + n % 64]
  else [240 + n / 262144, 128 + (n / 4096) % 64, 128 + (n / 64) % 64,
    128 + n % 64]

/-- Uppercase hexadecimal digit for `0 ≤ n < 16`. -/
def hexDigit (n : Nat) : Char :=
  if n < 10 then Char.ofNat (48 + n) else Char.ofNat (55 + n)

/-- The characters `encodeURIComponent` leaves unescaped
(`A-Z a-z 0-9 - _ . ! ~ * ' ( )`). -/
def uriUnreserved (c : Char) : Bool :=
  c.isAlphanum || c = '-' || c = '_' || c = '.' || c = '!' || c = '~' ||
    c = '*' || c = Char.ofNat 39 || c = '(' || c = ')'

/-- The `enc` helper of `makeId` (lines 2612-2614):
`encodeURIComponent(String(s)).replace(/%/g, "_")` — every escaped byte
`%XX` becomes `_XX` (a literal `%` is itself escaped first). -/
def encComponent (s : String) : String :=
  String.mk (s.data.flatMap fun c =>
    if uriUnreserved c then [c]
    else (utf8Bytes c).flatMap fun b =>
      ['_', hexDigit (b / 16), hexDigit (b % 16)])

/-- Source function `makeId` (line 2611): encode each part and join with
`:`; all call sites pass strings. -/
def makeId (parts : List String) : String :=
  String.intercalate ":" (parts.map encComponent)

/-- UTF-16 code units of a string (the JS default sort comparator works on
code units). -/
def utf16Units (s : String) : List Nat :=
  s.data.flatMap fun c =>
    let n := c.toNat
    if n < 65536 then [n]
    else [55296 + (n - 65536) / 1024, 56320 + (n - 65536) % 1024]

/-- Lexicographic order on code-unit lists. -/
def lexLeNat : List Nat → List Nat → Bool
  | [], _ => true
  | _ :: _, [] => false
  | a :: as, b :: bs =>
    if a < b then true else if b < a then false else lexLeNat as bs

/-- The JS default `Array.prototype.sort` order on strings. -/
def jsStrLe (a b : String) : Bool := lexLeNat (utf16Units a) (utf16Units b)

/-- `xs.sort()` on an array of strings. -/
def sortJs (xs : List String) : List String := xs.mergeSort jsStrLe

/-- JS property access `value[k]`: post-`JSON.parse` objects have unique
keys, so the first binding is the binding; an absent key (unreachable —
the keys are enumerated from the object itself) defaults to `null`. -/
def jsIndex (kvs : List (String × Json)) (k : String) : Json :=
  ((kvs.find? (fun kv => kv.1 = k)).map (·.2)).getD .null

theorem sizeOf_snd_lt_of_mem (kvs : List (String × Json))
    (kv : String × Json) (h : kv ∈ kvs) : sizeOf kv.2 < sizeOf kvs := by
  induction kvs with
  | nil => cases h
  | cons a l ih =>
    rcases List.mem_cons.mp h with h | h
    · subst h
      obtain ⟨x, y⟩ := kv
      simp only [List.cons.sizeOf_spec, Prod.mk.sizeOf_spec]
      omega
    · have := ih h
      simp only [List.cons.sizeOf_spec]
      omega

theorem sizeOf_jsIndex_lt (kvs : List (String × Json)) (k : String)
    (h : ¬ isPrimitive (jsIndex kvs k) = true) :
    sizeOf (jsIndex kvs k) < sizeOf kvs := by
  rw [jsIndex] at h ⊢
  cases hf : kvs.find? (fun kv => kv.1 = k) with
  | none =>
    rw [hf] at h
    exact absurd rfl h
  | some kv =>
    exact sizeOf_snd_lt_of_mem kvs kv (List.mem_of_find?_eq_some hf)

mutual
/-- Source function `encodeStructuredValue` (lines 2626-2695).  The JS
`graph` parameter is append-only in this function; the embedding returns
the nodes pushed (in push order) together with the returned `@id`.  For a
primitive value (unreachable — every call site guards with `isPrimitive`)
the object branch runs with `Object.keys(value || {})` empty. -/
def encodeStructuredValue (Z : List String) (value : Json) (idBase : String) :
    List Json × String :=
  match value with
  | .arr items =>
    let listId := makeId [idBase, "list"]
    let r := encodeListItems Z listId items 0
    (r.1 ++ [Json.obj [("@id", .str listId),
        ("@type", .arr [.str (z Z "https://schema.org/ItemList")]),
        (z Z "https://schema.org/itemListElement", .arr r.2)]], listId)
  | .obj kvs =>
    let objId := makeId [idBase, "obj"]
    let keys := sortJs ((kvs.map Prod.fst).dedup)
    let r := encodeObjProps Z objId kvs keys
    (Json.obj [("@id", .str objId),
        ("@type", .arr [.str (z Z "https://schema.org/StructuredValue")]),
        (z Z "https://schema.org/additionalProperty", .arr r.2)] :: r.1,
      objId)
  | _ =>
    ([Json.obj [("@id", .str (makeId [idBase, "obj"])),
        ("@type", .arr [.str (z Z "https://schema.org/StructuredValue")]),
        (z Z "https://schema.org/additionalProperty", .arr [])]],
      makeId [idBase, "obj"])
termination_by (sizeOf value, 0)
decreasing_by
  all_goals simp_wf
  · exact Prod.Lex.left _ _ (by omega)
  · exact Prod.Lex.left _ _ (by omega)
/-- The array loop of `encodeStructuredValue` (lines 2636-2656): one
`schema:ListItem` per element (nested structured nodes pushed before it),
returning the pushed nodes and the `itemListElement` references. -/
def encodeListItems (Z : List String) (listId : String) :
    List Json → Nat → List Json × List Json
  | [], _ => ([], [])
  | item :: rest, idx =>
    let liId := makeId [listId, "li", decStr idx]
    let ip : List Json × (String × Json) :=
      if isPrimitive item then
        ([], (z Z "https://schema.org/item",
          Json.arr [.obj [("@value", item)]]))
      else
        let r := encodeStructuredValue Z item (makeId [liId, "item"])
        (r.1, (z Z "https://schema.org/item",
          Json.arr [.obj [("@id", .str r.2)]]))
    let li := Json.obj [("@id", .str liId),
        ("@type", .arr [.str (z Z "https://schema.org/ListItem")]),
        (z Z "https://schema.org/position",
          Json.arr [.obj [("@value", .num idx)]]),
        ip.2]
    let r2 := encodeListItems Z listId rest (idx + 1)
    (ip.1 ++ [li] ++ r2.1, Json.obj [("@id", .str liId)] :: r2.2)
termination_by items idx => (sizeOf items, 0)
decreasing_by
  all_goals simp_wf
  · exact Prod.Lex.left _ _ (by omega)
  · exact Prod.Lex.left _ _ (by omega)
/-- The key loop of `encodeStructuredValue` (lines 2672-2692) over the
sorted keys: one `schema:PropertyValue` per key (nested structured nodes
pushed before it), returning the pushed nodes and the
`additionalProperty` references. -/
def encodeObjProps (Z : List String) (objId : String)
    (kvs : List (String × Json)) : List String → List Json × List Json
  | [] => ([], [])
  | k :: ks =>
    let v := jsIndex kvs k
    let pvId := makeId [objId, "pv", k]
    let vp : List Json × (String × Json) :=
      if hp : isPrimitive v then
        ([], (z Z "https://schema.org/value",
          Json.arr [.obj [("@value", v)]]))
      else
        let r := encodeStructuredValue Z v (makeId [objId, "v", k])
        (r.1, (z Z "https://schema.org/valueReference",
          Json.arr [.obj [("@id", .str r.2)]]))
    let pv := Json.obj [("@id", .str pvId),
        ("@type", .arr [.str (z Z "https://schema.org/PropertyValue")]),
        (z Z "https://schema.org/name",
          Json.arr [.obj [("@value", .str k)]]),
        vp.2]
    let r2 := encodeObjProps Z objId kvs ks
    (vp.1 ++ [pv] ++ r2.1, Json.obj [("@id", .str pvId)] :: r2.2)
termination_by keys => (sizeOf kvs, keys.length)
decreasing_by
  all_goals simp_wf
  · exact Prod.Lex.left _ _ (sizeOf_jsIndex_lt kvs k hp)
  · exact Prod.Lex.right _ (by omega)
end

/-- Update the first element whose `@id` is the string `sid`
(`graph.find(x => x && x["@id"] === subjectId)` followed by in-place
mutation; no match leaves the graph unchanged). -/
def updateFirstById (graph : List Json) (sid : String) (f : Json → Json) :
    List Json :=
  match graph with
  | [] => []
  | x :: rest =>
    if x.getStr "@id" = some sid then f x :: rest
    else x :: updateFirstById rest sid f

/-- The `schema:additionalProperty` push of `addPropertyValue` (lines
2726-2730): default a falsy slot to `[]`, wrap a non-array value, append
the reference. -/
def pushAdditionalProperty (Z : List String) (subj : Json) (pvId : String) :
    Json :=
  match subj with
  | .obj kvs =>
    let key := z Z "https://schema.org/additionalProperty"
    let cur := match (Json.obj kvs).get key with
      | some v => if jsTruthy v then v else Json.arr []
      | none => Json.arr []
    let curArr := match cur with
      | Json.arr xs => xs
      | other => [other]
    .obj (setKey kvs key (.arr (curArr ++ [Json.obj [("@id", .str pvId)]])))
  | other => other

/-- Source function `addPropertyValue` (lines 2705-2732): push the
PropertyValue node (preceded by the nodes of a structured value) and link
it from the first node carrying the subject id. -/
def addPropertyValue (Z : List String) (graph : List Json)
    (subjectId key : String) (value : Json) (baseId : String) : List Json :=
  let pvId := makeId [baseId, "pv", key]
  let vp : List Json × (String × Json) :=
    if isPrimitive value then
      ([], (z Z "https://schema.org/value", Json.arr [.obj [("@value", value)]]))
    else
      let r := encodeStructuredValue Z value (makeId [baseId, "v", key])
      (r.1, (z Z "https://schema.org/valueReference",
        Json.arr [.obj [("@id", .str r.2)]]))
  let pv := Json.obj [("@id", .str pvId),
      ("@type", .arr [.str (z Z "https://schema.org/PropertyValue")]),
      (z Z "https://schema.org/name", Json.arr [.obj [("@value", .str key)]]),
      vp.2]
  updateFirstById (graph ++ vp.1 ++ [pv]) subjectId
    (fun subj => pushAdditionalProperty Z subj pvId)

/-- `appId()` (line 2568); the parameter is the interpolated
`NODE_RED_INSTANCE_ID` environment value. -/
def appId (inst : String) : String := "urn:nrua:a" ++ inst

/-- `flowId(tabId)` (line 2571). -/
def flowId (tabId : String) : String := "urn:nrua:f" ++ tabId

/-- `nodeId(id)` (line 2574). -/
def nodeId (id : String) : String := "urn:nrua:n" ++ id

/-- `outId(id, gate)` (line 2577); the gate index is stringified in
decimal by the template literal. -/
def outId (id : String) (gate : Nat) : String :=
  "urn:nrua:o" ++ id ++ decStr gate

/-- `EXCLUDE_NODE_KEYS` (line 2589). -/
def EXCLUDE_NODE_KEYS : List String :=
  ["id", "type", "z", "x", "y", "wires", "info", "d", "g"]

/-- A key skipped by the property loop: the exclusion set plus the keys
skipped inline (`name`, `label`, `disabled`, `env`; lines 2813-2815). -/
def skipNodeKey (k : String) : Bool :=
  EXCLUDE_NODE_KEYS.contains k || k = "name" || k = "label" ||
    k = "disabled" || k = "env"

/-- Template-literal interpolation `${x}` (JS `undefined` prints as
`"undefined"`; `String(x)` agrees on every value used here). -/
def tmplStr (x : Option Json) : String :=
  match x with
  | some v => jsToString v
  | none => "undefined"

/-- `addKw` (lines 2760-2770): skip falsy keywords, trim the stringified
keyword, skip empty, insert into the flow's insertion-ordered set. -/
def addKw (kws : List (String × List String)) (flowIri : String)
    (kw : Json) : List (String × List String) :=
  if ¬ jsTruthy kw then kws
  else
    let k := jsTrim (jsToString kw)
    if k = "" then kws
    else
      match kws.find? (fun e => e.1 = flowIri) with
      | none => kws ++ [(flowIri, [k])]
      | some _ =>
        kws.map (fun e =>
          if e.1 = flowIri then
            (e.1, if e.2.contains k then e.2 else e.2 ++ [k])
          else e)

/-- `flowKeywords.set(fid, flowKeywords.get(fid) || new Set())` of the tab
loop (line 2786): ensure an entry exists, keeping insertion order. -/
def ensureKwEntry (kws : List (String × List String)) (fid : String) :
    List (String × List String) :=
  match kws.find? (fun e => e.1 = fid) with
  | some _ => kws
  | none => kws ++ [(fid, [])]

/-- One `tab` entry of the tabs loop (lines 2773-2787): push the Flow node
(the `schema:name` entry is spread in only for a truthy label) and ensure
a keyword entry. -/
def processTab (Z : List String) (inst : String)
    (st : List Json × List (String × List String)) (t : Json) :
    List Json × List (String × List String) :=
  let fid := flowId (tmplStr (t.get "id"))
  let label := (t.get "label").getD Json.null
  let flowNode := Json.obj
    ([("@id", .str fid),
      ("@type", .arr [.str (z Z "https://w3id.org/nodered-ontology-based-program-analysis/nodered-user-application-ontology#Flow")]),
      (z Z "https://schema.org/identifier",
        Json.arr [.obj [("@value", .str (tmplStr (t.get "id")))]])]
     ++ (if jsTruthy label then
          [(z Z "https://schema.org/name",
            Json.arr [.obj [("@value", .str (jsToString label))]])]
        else [])
     ++ [(z Z "https://w3id.org/nodered-ontology-based-program-analysis/nodered-user-application-ontology#isPartOfApp",
        Json.arr [.obj [("@id", .str (appId inst))]])])
  (st.1 ++ [flowNode], ensureKwEntry st.2 fid)

/-- The `hasOutput` push of the wiring loop (lines 2838-2839): default a
falsy slot to `[]` and append the output reference (the slot is always a
fresh array here; on a truthy non-array JS would throw). -/
def pushHasOutput (Z : List String) (nd : Json) (outIri : String) : Json :=
  match nd with
  | .obj kvs =>
    let key := z Z "https://w3id.org/nodered-ontology-based-program-analysis/nodered-user-application-ontology#hasOutput"
    let cur := match (Json.obj kvs).get key with
      | some v => if jsTruthy v then v else Json.arr []
      | none => Json.arr []
    match cur with
    | Json.arr xs =>
      .obj (setKey kvs key (.arr (xs ++ [Json.obj [("@id", .str outIri)]])))
    | _ => nd
  | other => other

/-- In-place update of the element at a position (JS reference mutation of
a node already pushed into `graph`). -/
def updateIdx (graph : List Json) (i : Nat) (f : Json → Json) : List Json :=
  match graph, i with
  | [], _ => []
  | x :: rest, 0 => f x :: rest
  | x :: rest, i + 1 => x :: updateIdx rest i f

/-- The wiring loop (lines 2822-2841): one NodeOutput node per non-empty
array gate, plus a `hasOutput` reference pushed onto the node at its
recorded position. -/
def processWires (Z : List String) (nid : String) (pos : Nat) :
    List Json → List Json → Nat → List Json
  | graph, [], _ => graph
  | graph, targets :: rest, gate =>
    match targets with
    | Json.arr (t :: ts) =>
      let outIri := outId nid gate
      let outNode := Json.obj
        [("@id", .str outIri),
         ("@type", .arr [.str (z Z "https://w3id.org/nodered-ontology-based-program-analysis/nodered-user-application-ontology#NodeOutput")]),
         (z Z "https://w3id.org/nodered-ontology-based-program-analysis/nodered-user-application-ontology#fromGate",
           Json.arr [.obj [("@value", .num gate)]]),
         (z Z "https://w3id.org/nodered-ontology-based-program-analysis/nodered-user-application-ontology#toNode",
           Json.arr ((t :: ts).map (fun tid =>
             Json.obj [("@id", .str (nodeId (jsToString tid)))])))]
      let graph1 := (graph ++ [outNode])
      processWires Z nid pos
        (updateIdx graph1 pos (fun nd => pushHasOutput Z nd outIri)) rest
        (gate + 1)
    | _ => processWires Z nid pos graph rest (gate + 1)

/-- One entry of the node loop (lines 2790-2843): guards, the Node node
(name spread in only when truthy), the property loop, the wiring loop. -/
def processNode (Z : List String) (inst : String)
    (st : List Json × List (String × List String)) (n : Json) :
    List Json × List (String × List String) :=
  match n with
  | .obj kvs =>
    let idV := (Json.obj kvs).get "id"
    let tyV := (Json.obj kvs).get "type"
    if ¬ (jsTruthy (idV.getD .null) ∧ jsTruthy (tyV.getD .null)) then st
    else if ((match tyV with
             | some (Json.str s) => s = "tab"
             | _ => false) : Bool) then st
    else
      let zV := (Json.obj kvs).get "z"
      let hasZ := jsTruthy (zV.getD .null)
      let partOf := if hasZ then flowId (jsToString (zV.getD .null))
        else appId inst
      let kws1 := if hasZ then addKw st.2 partOf (tyV.getD .null) else st.2
      let thisNodeId := nodeId (tmplStr idV)
      let nameV := (Json.obj kvs).get "name"
      let node := Json.obj
        ([("@id", .str thisNodeId),
          ("@type", .arr [.str (z Z "https://w3id.org/nodered-ontology-based-program-analysis/nodered-user-application-ontology#Node")]),
          (z Z "https://schema.org/identifier",
            Json.arr [.obj [("@value", .str (jsToString (idV.getD .null)))]]),
          (z Z "https://w3id.org/nodered-ontology-based-program-analysis/nodered-user-application-ontology#type",
            Json.arr [.obj [("@value", .str (jsToString (tyV.getD .null)))]])]
         ++ (if jsTruthy (nameV.getD .null) then
              [(z Z "https://schema.org/name",
                Json.arr [.obj [("@value", .str (jsToString (nameV.getD .null)))]])]
            else [])
         ++ [(z Z (if hasZ then "https://w3id.org/nodered-ontology-based-program-analysis/nodered-user-application-ontology#isPartOfFlow"
              else "https://w3id.org/nodered-ontology-based-program-analysis/nodered-user-application-ontology#isPartOfApp"),
            Json.arr [.obj [("@id", .str partOf)]])])
      let pos := st.1.length
      let graph1 := st.1 ++ [node]
      let graph2 := kvs.foldl (fun g kv =>
        if skipNodeKey kv.1 then g
        else addPropertyValue Z g thisNodeId kv.1 kv.2 thisNodeId) graph1
      let graph3 := match (Json.obj kvs).get "wires" with
        | some (Json.arr ws) => processWires Z (tmplStr idV) pos graph2 ws 0
        | _ => graph2
      (graph3, kws1)
  | _ => st

/-- The keywords pass (lines 2846-2860): join each flow's trimmed, sorted
keyword set and set it on the first node carrying the flow's id. -/
def applyKeywords (Z : List String) (graph : List Json)
    (e : String × List String) : List Json :=
  if e.2.isEmpty then graph
  else
    let joined := String.intercalate ","
      (sortJs ((e.2.map jsTrim).filter (fun s => s ≠ "")))
    updateFirstById graph e.1 (fun fn =>
      match fn with
      | Json.obj kvs =>
        .obj (setKey kvs (z Z "https://schema.org/keywords")
          (.arr [.obj [("@value", .str joined)]]))
      | o => o)

/-- Source function `buildAppJsonLdFromFlows` (lines 2749-2865); `inst`
and `gidApp` carry the instance environment (`NODE_RED_INSTANCE_ID` and
the compressed `URDF_APP_GID`). -/
def buildAppJsonLdFromFlows (Z : List String) (inst gidApp : String)
    (flowsArray : Json) : Json :=
  let flows := match flowsArray with
    | Json.arr xs => xs
    | _ => []
  let root := Json.obj [("@id", .str (appId inst)),
      ("@type", .arr [.str (z Z "https://schema.org/Application")])]
  let tabs := flows.filter (fun n =>
    jsTruthy n && (match n.get "type" with
      | some (Json.str s) => s = "tab"
      | _ => false))
  let st1 := tabs.foldl (processTab Z inst)
    (([root], []) : List Json × List (String × List String))
  let st2 := flows.foldl (processNode Z inst) st1
  let graphF := st2.2.foldl (applyKeywords Z) st2.1
  Json.arr [Json.obj [("@context", Json.obj []), ("@id", .str gidApp),
      ("@graph", Json.arr graphF)]]

/-- A concrete flows array: one tab, one wired node with a structured
property, one plain node. -/
def sampleFlows : Json :=
  Json.arr [
    Json.obj [("id", .str "t1"), ("type", .str "tab"),
      ("label", .str "Main")],
    Json.obj [("id", .str "n1"), ("type", .str "inject"),
      ("z", .str "t1"),
      ("props", Json.arr [Json.str "a", Json.obj [("k", Json.num 1)]]),
      ("wires", Json.arr [Json.arr [Json.str "n2"]])],
    Json.obj [("id", .str "n2"), ("type", .str "debug"),
      ("z", .str "t1")]]

/-- C7.  The flow-to-graph translator is deterministic: byte-identical
flow configurations under the same instance configuration (dictionary,
instance id, application gid) produce identical application documents —
the translation is a pure function of these inputs, with fixed sort
orders (`Object.keys(...).sort()`, the keyword sort) baked into the code.
Moreover every generated structured-value id depends only on the parent
id and the key/index path: `encodeStructuredValue` returns
`makeId(idBase, "list")` for an array and `makeId(idBase, "obj")`
otherwise, and the list items of an array at positions `idx, idx+1, ...`
are `makeId(listId, "li", i)` for exactly those `i`. -/
theorem c7_translator_determinism :
    (∀ (Z : List String) (inst gidApp : String) (fl1 fl2 : Json),
      fl1 = fl2 →
      buildAppJsonLdFromFlows Z inst gidApp fl1 =
        buildAppJsonLdFromFlows Z inst gidApp fl2) ∧
    (∀ (Z : List String) (v : Json) (b : String),
      (encodeStructuredValue Z v b).2 =
        if v.isArr then makeId [b, "list"] else makeId [b, "obj"]) ∧
    (∀ (Z : List String) (listId : String) (items : List Json) (idx : Nat),
      (encodeListItems Z listId items idx).2 =
        (List.range' idx items.length).map (fun i =>
          Json.obj [("@id", .str (makeId [listId, "li", decStr i]))])) := by
  refine ⟨fun Z inst g fl1 fl2 h => by rw [h], ?_, ?_⟩
  · intro Z v b
    cases v <;> simp [encodeStructuredValue, Json.isArr]
  · intro Z listId items idx
    induction items generalizing idx with
    | nil => simp [encodeListItems]
    | cons item rest ih =>
      simp [encodeListItems, ih (idx + 1), List.range'_succ]

/-- C7, witness: the determinism theorem applied to a concrete flows
array, and the id characterization at a concrete object value. -/
theorem c7_translator_determinism_witness :
    buildAppJsonLdFromFlows [] "1" "urn:nrua:app" sampleFlows =
      buildAppJsonLdFromFlows [] "1" "urn:nrua:app" sampleFlows ∧
    (encodeStructuredValue [] (Json.obj [("k", Json.num 1)]) "base").2 =
      (if (Json.obj [("k", Json.num 1)]).isArr then makeId ["base", "list"]
       else makeId ["base", "obj"]) :=
  ⟨c7_translator_determinism.1 [] "1" "urn:nrua:app" sampleFlows
      sampleFlows rfl,
    c7_translator_determinism.2.1 [] (Json.obj [("k", Json.num 1)]) "base"⟩

/-! ### C8: JSON-LD flattening (`flattenJsonLd`, lines 1207-1368)

The function is stateful: `existingIds` (a `Set`), `bCounter`, and the
per-document `nodesById`/`order` pair; the embedding threads a `FlattenSt`
record, fusing `nodesById` and `order` into one insertion-ordered
association list.  `normalizeNode({...item, "@id": id})` seeds its output
with `@id: id` and then processes exactly the non-`@id` entries of `item`
in order (the spread only overrides the `@id` slot, which the loop skips);
the embedding fuses the spread into an `id` parameter passed next to the
original entries. -/

/-- The mutable flattening state: the blank-node counter, the collected
id set (a JS `Set`, here an ordered list without duplicates) and the
per-document `nodesById`/`order` accumulator. -/
structure FlattenSt where
  bCounter : Nat
  existingIds : List String
  nodes : List (String × Json)

/-- The candidate blank-node label `_:b<k>`. -/
def bnodeName (k : Nat) : String := "_:b" ++ decStr k

/-- The `do { id = _:b${bCounter++} } while (existingIds.has(id))` loop of
`newBNodeId` (lines 1242-1246), with explicit fuel; every call supplies
fuel `existingIds.length + 1`, which the freshness theorem shows is never
exhausted (the candidates are pairwise distinct). -/
def newBNodeIdAux : Nat → Nat → List String → String × Nat
  | 0, ctr, _ => (bnodeName ctr, ctr + 1)
  | fuel + 1, ctr, ids =>
    if ids.contains (bnodeName ctr) then newBNodeIdAux fuel (ctr + 1) ids
    else (bnodeName ctr, ctr + 1)

/-- Source function `newBNodeId` (lines 1241-1247): first free candidate,
counter advanced past it, the id recorded in `existingIds`. -/
def newBNodeId (st : FlattenSt) : String × FlattenSt :=
  match newBNodeIdAux (st.existingIds.length + 1) st.bCounter
      st.existingIds with
  | (id, ctr) =>
    (id, { st with bCounter := ctr, existingIds := st.existingIds ++ [id] })

/-- `isValueObject` (line 1212). -/
def isValueObject (o : Json) : Bool :=
  match o with
  | .obj kvs => kvs.any (fun kv => kv.1 = "@value")
  | _ => false

/-- `hasOnlyId` (line 1214). -/
def hasOnlyId (o : Json) : Bool :=
  match o with
  | .obj kvs =>
    (match (Json.obj kvs).getStr "@id" with
     | some _ => true
     | none => false) && kvs.all (fun kv => kv.1 = "@id")
  | _ => false

/-- `isNodeLike` (lines 1216-1222). -/
def isNodeLike (o : Json) : Bool :=
  match o with
  | .obj kvs =>
    if isValueObject (.obj kvs) then false
    else
      (match (Json.obj kvs).getStr "@id" with
       | some _ => true
       | none => false) ||
      kvs.any (fun kv => kv.1 = "@type") ||
      kvs.any (fun kv => ! strStartsWith kv.1 "@")
  | _ => false

/-- `normalizeType` (lines 1276-1280): `none` models `undefined`. -/
def normalizeType (t : Json) : Option (List String) :=
  match t with
  | .str s => some [s]
  | .arr ts => some (ts.filterMap (fun x =>
      match x with
      | Json.str s => some s
      | _ => none))
  | _ => none

/-- `ensureNode` (lines 1253-1259): create the `{"@id": id}` stub and
record the output position on first sight. -/
def ensureNode (nodes : List (String × Json)) (id : String) :
    List (String × Json) :=
  if nodes.any (fun e => e.1 = id) then nodes
  else nodes ++ [(id, Json.obj [("@id", Json.str id)])]

/-- The entry loop of `mergeNode` (lines 1263-1273): concatenate arrays,
fill missing keys, keep existing scalars. -/
def mergeObj (tgt patch : Json) : Json :=
  match patch with
  | .obj pkvs =>
    pkvs.foldl (fun t kv =>
      if kv.1 = "@id" then t
      else
        match t with
        | Json.obj tkvs =>
          (match (Json.obj tkvs).get kv.1, kv.2 with
           | some (Json.arr xs), Json.arr ys =>
             Json.obj (setKey tkvs kv.1 (.arr (xs ++ ys)))
           | some _, _ => Json.obj tkvs
           | none, v => Json.obj (setKey tkvs kv.1 v))
        | other => other) tgt
  | _ => tgt

/-- Source function `mergeNode` (lines 1262-1274). -/
def mergeNode (nodes : List (String × Json)) (id : String) (patch : Json) :
    List (String × Json) :=
  (ensureNode nodes id).map (fun e =>
    if e.1 = id then (e.1, mergeObj e.2 patch) else e)

mutual
/-- Structural node count of a value (string contents not counted); the
termination measure of the normalization walk. -/
def jrank : Json → Nat
  | .arr xs => 1 + jrankL xs
  | .obj kvs => 1 + jrankE kvs
  | _ => 1
/-- `jrank` summed over an array. -/
def jrankL : List Json → Nat
  | [] => 1
  | x :: xs => 1 + jrank x + jrankL xs
/-- `jrank` summed over the values of an object. -/
def jrankE : List (String × Json) → Nat
  | [] => 1
  | (_, v) :: rest => 1 + jrank v + jrankE rest
end

mutual
/-- `normalizeItem` (lines 1286-1305): value objects and pure references
kept, node-like items extracted (under their string `@id` or a fresh
blank-node id) and replaced by a reference, everything else wrapped as a
value object. -/
def normalizeItem (item : Json) (st : FlattenSt) : FlattenSt × Json :=
  match item with
  | .obj kvs =>
    if isValueObject (.obj kvs) then (st, .obj kvs)
    else if hasOnlyId (.obj kvs) then (st, .obj kvs)
    else if isNodeLike (.obj kvs) then
      match (Json.obj kvs).getStr "@id" with
      | some id =>
        match normalizeEntries kvs st with
        | (st1, entries) =>
          let merged := mergeNode st1.nodes id
            (Json.obj (("@id", Json.str id) :: entries))
          ({ st1 with nodes := merged }, Json.obj [("@id", Json.str id)])
      | none =>
        match newBNodeId st with
        | (id, st1) =>
          match normalizeEntries kvs st1 with
          | (st2, entries) =>
            let merged := mergeNode st2.nodes id
              (Json.obj (("@id", Json.str id) :: entries))
            ({ st2 with nodes := merged }, Json.obj [("@id", Json.str id)])
    else (st, Json.obj [("@value", .obj kvs)])
  | other => (st, Json.obj [("@value", other)])
termination_by 3 * jrank item
decreasing_by
  all_goals simp [jrank, jrankE]
  all_goals omega
/-- The entry loop of `normalizeNode` (lines 1316-1334): `@id` skipped
(the output is seeded with it), `@type` normalized to a nonempty string
array or dropped, other keywords kept, predicates normalized to item
arrays. -/
def normalizeEntries :
    List (String × Json) → FlattenSt → FlattenSt × List (String × Json)
  | [], st => (st, [])
  | (k, v) :: rest, st =>
    if k = "@id" then normalizeEntries rest st
    else if k = "@type" then
      match normalizeEntries rest st with
      | (st1, out) =>
        (match normalizeType v with
         | some ts =>
           if ts.isEmpty then (st1, out)
           else (st1, ("@type", Json.arr (ts.map Json.str)) :: out)
         | none => (st1, out))
    else if strStartsWith k "@" then
      match normalizeEntries rest st with
      | (st1, out) => (st1, (k, v) :: out)
    else
      match normalizePredicateValue v st with
      | (st1, items) =>
        match normalizeEntries rest st1 with
        | (st2, out) => (st2, (k, Json.arr items) :: out)
termination_by kvs st => 3 * jrankE kvs + 2
decreasing_by
  all_goals simp [jrank, jrankE, jrankL]
  all_goals omega
/-- `normalizePredicateValue` (lines 1308-1311). -/
def normalizePredicateValue (v : Json) (st : FlattenSt) :
    FlattenSt × List Json :=
  match v with
  | .arr xs => normalizeItems xs st
  | other =>
    match normalizeItem other st with
    | (st1, item) => (st1, [item])
termination_by 3 * jrank v + 2
decreasing_by
  all_goals simp [jrank, jrankL]
  all_goals omega
/-- `v.map(normalizeItem)` with the state threaded left to right. -/
def normalizeItems : List Json → FlattenSt → FlattenSt × List Json
  | [], st => (st, [])
  | x :: xs, st =>
    match normalizeItem x st with
    | (st1, item) =>
      match normalizeItems xs st1 with
      | (st2, items) => (st2, item :: items)
termination_by xs st => 3 * jrankL xs + 1
decreasing_by
  all_goals simp [jrank, jrankL]
  all_goals omega
end

/-- `processTopLevelNode` (lines 1340-1345): nodes without a string `@id`
are skipped; `normalizeNode(n)` is the seeded entry walk. -/
def processTopLevelNode (st : FlattenSt) (n : Json) : FlattenSt :=
  match n with
  | .obj kvs =>
    (match (Json.obj kvs).getStr "@id" with
     | some id =>
       (match normalizeEntries kvs st with
        | (st1, entries) =>
          let merged := mergeNode st1.nodes id
            (Json.obj (("@id", Json.str id) :: entries))
          { st1 with nodes := merged })
     | none => st)
  | _ => st

/-- Source function `flattenJsonLd` (lines 1207-1368). -/
def flattenJsonLd (input : Json) : Json :=
  let containers := match input with
    | Json.arr xs => xs
    | other => [other]
  let isContainerDoc := (! containers.isEmpty) &&
    containers.all (fun c => c.isObj &&
      (match c.get "@graph" with
       | some (Json.arr _) => true
       | _ => false))
  let docs : List Json :=
    if isContainerDoc then containers
    else [Json.obj [("@graph", Json.arr containers)]]
  let docGraph : Json → List Json := fun d =>
    match d.get "@graph" with
    | some (Json.arr xs) => xs
    | _ => []
  let existingIds := docs.foldl (fun ids d =>
    (docGraph d).foldl (fun ids n =>
      match n.getStr "@id" with
      | some id => if ids.contains id then ids else ids ++ [id]
      | none => ids) ids) []
  let res := docs.foldl (fun (acc : FlattenSt × List Json) d =>
    match acc with
    | (st0, outs) =>
      let st1 := (docGraph d).foldl processTopLevelNode
        { st0 with nodes := [] }
      let flattened := Json.arr (st1.nodes.map (fun e => e.2))
      let out := if isContainerDoc then
          (match d with
           | Json.obj kvs => Json.obj (setKey kvs "@graph" flattened)
           | _ => d)
        else flattened
      ({ st1 with nodes := [] }, outs ++ [out]))
    ((⟨0, existingIds, []⟩ : FlattenSt), [])
  if isContainerDoc then Json.arr res.2
  else res.2.headD (Json.arr [])

/-- A container document whose only top-level node has no `@id`. -/
def c8Doc1 : Json :=
  Json.arr [Json.obj [("@graph", Json.arr [Json.obj [("p", Json.num 1)]])]]

/-- An embedded node carrying the explicit blank-node id `_:b0`. -/
def c8Emb1 : Json :=
  Json.obj [("@id", .str "_:b0"),
    ("a", Json.arr [Json.obj [("@value", Json.num 1)]])]

/-- An embedded node without `@id`. -/
def c8Emb2 : Json :=
  Json.obj [("b", Json.arr [Json.obj [("@value", Json.num 2)]])]

/-- A container document with one top-level node referencing both embedded
nodes under predicate `q`. -/
def c8Doc2 : Json :=
  Json.arr [Json.obj [("@graph", Json.arr
    [Json.obj [("@id", .str "urn:x"), ("q", Json.arr [c8Emb1, c8Emb2])]])]]

/-- The single conflated node the flattening of `c8Doc2` produces: the
id-less embedded node was generated the id `_:b0` already carried by its
sibling, and both were merged. -/
def c8Out1 : Json :=
  Json.obj [("@id", .str "_:b0"),
    ("a", Json.arr [Json.obj [("@value", Json.num 1)]]),
    ("b", Json.arr [Json.obj [("@value", Json.num 2)]])]

/-- The flattened top-level node of `c8Doc2`: both references point to the
same `_:b0`. -/
def c8Out2 : Json :=
  Json.obj [("@id", .str "urn:x"),
    ("q", Json.arr [Json.obj [("@id", .str "_:b0")],
      Json.obj [("@id", .str "_:b0")]])]

/-- C8, counterexample.  (1) A top-level node without `@id` is dropped
from the flattened output (it receives no generated id at all:
`processTopLevelNode` returns before `normalizeNode`), refuting "the node
is retained".  (2) `existingIds` collects only top-level ids, so the
generated id can collide with the explicit id of an embedded node present
in the same dataset: flattening `c8Doc2` assigns the id-less embedded node
the id `_:b0`, which its sibling already carries, and the two nodes are
conflated into one. -/
theorem c8_flatten_counterexample :
    flattenJsonLd c8Doc1 = Json.arr [Json.obj [("@graph", Json.arr [])]] ∧
    flattenJsonLd c8Doc2 =
      Json.arr [Json.obj [("@graph", Json.arr [c8Out1, c8Out2])]] := by
  exact ⟨by with_unfolding_all rfl, by with_unfolding_all rfl⟩

theorem bnodeName_inj (a b : Nat) (h : bnodeName a = bnodeName b) :
    a = b := by
  rw [bnodeName, bnodeName] at h
  have hd := congrArg String.data h
  simp only [String.data_append] at hd
  exact decDigits_injective (List.append_cancel_left hd)

theorem exists_fresh_bnode (ctr : Nat) (ids : List String) :
    ∃ k, ctr ≤ k ∧ k < ctr + (ids.length + 1) ∧ bnodeName k ∉ ids := by
  by_contra hall
  push_neg at hall
  have hsub : ((List.range (ids.length + 1)).map
      (fun i => bnodeName (ctr + i))).toFinset ⊆ ids.toFinset := by
    intro x hx
    rw [List.mem_toFinset] at hx ⊢
    obtain ⟨i, hi, rfl⟩ := List.mem_map.mp hx
    exact hall (ctr + i) (Nat.le_add_right _ _)
      (by have := List.mem_range.mp hi; omega)
  have hnd : ((List.range (ids.length + 1)).map
      (fun i => bnodeName (ctr + i))).Nodup := by
    refine (List.nodup_range _).map ?_
    intro a b hab
    have := bnodeName_inj _ _ hab
    omega
  have hcard1 : ((List.range (ids.length + 1)).map
      (fun i => bnodeName (ctr + i))).toFinset.card = ids.length + 1 := by
    rw [List.toFinset_card_of_nodup hnd, List.length_map, List.length_range]
  have hcard2 := Finset.card_le_card hsub
  have hcard3 := ids.toFinset_card_le
  omega

theorem newBNodeIdAux_not_mem :
    ∀ (fuel ctr : Nat) (ids : List String),
      (∃ k, ctr ≤ k ∧ k < ctr + fuel ∧ bnodeName k ∉ ids) →
      (newBNodeIdAux fuel ctr ids).1 ∉ ids := by
  intro fuel
  induction fuel with
  | zero =>
    intro ctr ids h
    obtain ⟨k, h1, h2, _⟩ := h
    omega
  | succ n ih =>
    intro ctr ids h
    simp only [newBNodeIdAux]
    by_cases hc : ids.contains (bnodeName ctr)
    · simp only [hc, if_true]
      apply ih
      obtain ⟨k, h1, h2, h3⟩ := h
      have hcm : bnodeName ctr ∈ ids := by simpa using hc
      have hkne : k ≠ ctr := fun he => h3 (he ▸ hcm)
      exact ⟨k, by omega, by omega, h3⟩
    · have hc' : ids.contains (bnodeName ctr) = false := by
        revert hc; cases ids.contains (bnodeName ctr) <;> simp
      simp only [hc', Bool.false_eq_true, if_false]
      intro hmem
      exact hc (by simpa using hmem)

/-- C8, amended.  (1) A generated blank-node id is fresh with respect to
the collected `existingIds` (the top-level ids plus every previously
generated id) and is recorded there, so later generations avoid it too;
(2) an extracted node is always present in the accumulator after its
merge (embedded id-less nodes are retained); (3) a top-level node without
a string `@id` is skipped unchanged — dropped from the output. -/
theorem c8_flatten_amended :
    (∀ st : FlattenSt, (newBNodeId st).1 ∉ st.existingIds ∧
      (newBNodeId st).1 ∈ (newBNodeId st).2.existingIds) ∧
    (∀ (nodes : List (String × Json)) (id : String) (patch : Json),
      (mergeNode nodes id patch).any (fun e => e.1 = id) = true) ∧
    (∀ (st : FlattenSt) (n : Json), n.getStr "@id" = none →
      processTopLevelNode st n = st) := by
  refine ⟨?_, ?_, ?_⟩
  · intro st
    have hfresh := newBNodeIdAux_not_mem (st.existingIds.length + 1)
      st.bCounter st.existingIds
      (exists_fresh_bnode st.bCounter st.existingIds)
    rw [newBNodeId]
    cases haux : newBNodeIdAux (st.existingIds.length + 1) st.bCounter
        st.existingIds with
    | mk id ctr =>
      rw [haux] at hfresh
      exact ⟨hfresh, by simp⟩
  · intro nodes id patch
    rw [mergeNode]
    have h1 : (ensureNode nodes id).any (fun e => e.1 = id) = true := by
      rw [ensureNode]
      by_cases h : nodes.any (fun e => e.1 = id)
      · simpa [h] using h
      · simp [h]
    revert h1
    induction ensureNode nodes id with
    | nil => intro h1; cases h1
    | cons e rest ih =>
      intro h1
      simp only [List.any_cons, Bool.or_eq_true, decide_eq_true_eq] at h1
      by_cases he : e.1 = id
      · simp [he]
      · rcases h1 with h1 | h1
        · exact absurd h1 he
        · simp only [List.map_cons, List.any_cons, if_neg he]
          have hd : decide (e.1 = id) = false := by simp [he]
          simp only [hd, Bool.false_or]
          exact ih h1
  · intro st n hid
    cases n with
    | obj kvs => simp only [processTopLevelNode, hid]
    | str s => rfl
    | num m => rfl
    | bool b => rfl
    | null => rfl
    | arr xs => rfl

/-- C8, witness for the amended theorem: the generator avoids an existing
`_:b0`, a merged node is present, and an id-less top-level node is
skipped. -/
theorem c8_flatten_amended_witness :
    ((newBNodeId ⟨0, ["_:b0"], []⟩).1 ∉
      (⟨0, ["_:b0"], []⟩ : FlattenSt).existingIds) ∧
    (mergeNode [] "urn:n" (Json.obj [("@id", Json.str "urn:n")])).any
      (fun e => e.1 = "urn:n") = true ∧
    processTopLevelNode ⟨0, [], []⟩ (Json.obj [("p", Json.num 1)]) =
      ⟨0, [], []⟩ :=
  ⟨(c8_flatten_amended.1 ⟨0, ["_:b0"], []⟩).1,
    c8_flatten_amended.2.1 [] "urn:n" (Json.obj [("@id", Json.str "urn:n")]),
    c8_flatten_amended.2.2 ⟨0, [], []⟩ (Json.obj [("p", Json.num 1)]) rfl⟩

end Urdf
